import Mathlib

/-!
Shallow embedding, in Lean 4, of the question-bank pipeline of this
repository (files `molsejt/qa_utils.py`, `orvosi_kemia/app_kemia.py`,
`orvosi_kemai/qa_utils_kemia.py`), together with theorems settling the
specification claims about it.

Conventions of the embedding:
* Python `str` is Lean `String`; the character-level work is done on
  `List Char` (`String.data`).
* Python whitespace (`str.strip`, regex `\s`) is modelled on its ASCII
  fragment (space, tab, newline, carriage return, vertical tab, form feed);
  `str.lower` is modelled on its ASCII fragment (`Char.toLower`).  All
  concrete inputs appearing in the claims stay inside these fragments.
* Python `dict` (insertion ordered, unique keys) is an association list in
  insertion order; where a theorem needs the unique-key property of a real
  dict, it carries a `Nodup` hypothesis on the key list.
* File IO is out of scope: the parsing functions take the already-read rows
  (for `csv.DictReader`) or text, exactly as the Python code sees them after
  the `open`/`read` calls.
* The `random` module is modelled by an explicit entropy function
  `g : Nat → Nat`: `random.sample` repeatedly picks an index given by the
  next entropy value and removes the element (a draw without replacement),
  `random.shuffle` is the full-length such draw.  Claims about sampling are
  distribution-free, so any entropy is quantified over.
* A Python function that can raise maps to `Except PyError _`; the error
  constructors are named after the specification's error kinds (§7 of the
  spec maps `ValueError` at the "empty/no rows" sites to `FormatError`,
  `KeyError` at the header site to `ConfigurationError`, and the
  "too many questions requested" `ValueError` to `ValidationError`).
-/

/-- ASCII fragment of Python's whitespace class (`str.strip`, regex `\s`). -/
def isPySpace (c : Char) : Bool :=
  c = ' ' || c = '\t' || c = '\n' || c = '\r' || c = '\x0b' || c = '\x0c'

/-- Python `str.lower`, ASCII fragment. -/
def pyLower (s : String) : String :=
  String.mk (s.data.map Char.toLower)

/-- Left strip on characters: drop leading Python whitespace. -/
def pyStripL (l : List Char) : List Char :=
  l.dropWhile isPySpace

/-- Right strip on characters: drop trailing Python whitespace. -/
def pyStripR (l : List Char) : List Char :=
  (l.reverse.dropWhile isPySpace).reverse

/-- Both-ends strip on characters (Python `str.strip()`). -/
def pyStripC (l : List Char) : List Char :=
  pyStripR (pyStripL l)

/-- Python `str.strip()` (ASCII whitespace fragment). -/
def pyStrip (s : String) : String :=
  String.mk (pyStripC s.data)

/-- Python `str.rstrip()` (ASCII whitespace fragment). -/
def pyRstrip (s : String) : String :=
  String.mk (pyStripR s.data)

/-- Helper for `extract_qnum`: the `\.\d{2}` part of the pattern — the text
must continue with a literal period and two digit characters (anything may
follow; the regex captures only the two digits). -/
def twoDigitsAfterDot (u : List Char) : Option (Char × Char) :=
  match u with
  | c :: a :: b :: _ =>
    if c = '.' && a.isDigit && b.isDigit then some (a, b) else none
  | _ => none

/-- `extract_qnum` (app_kemia.py lines 66-72) on the character list: Python
`re.match(r"^\s*(\d+\.\d{2})", kerdes)`, returning the captured group.
The regex: optional leading whitespace, one or more digits (greedy, and since
a digit run followed by something other than `.` cannot backtrack into a
successful match, this is exactly the maximal digit run), a literal `.`,
then exactly two digits.  `\d` and `\s` are modelled on their ASCII
fragments (`Char.isDigit`, `isPySpace`). -/
def extract_qnum_core (l : List Char) : Option (List Char) :=
  if (l.dropWhile isPySpace).takeWhile Char.isDigit = [] then none
  else
    match twoDigitsAfterDot ((l.dropWhile isPySpace).dropWhile Char.isDigit) with
    | some (a, b) =>
      some ((l.dropWhile isPySpace).takeWhile Char.isDigit ++ ['.', a, b])
    | none => none

/-- `extract_qnum` (app_kemia.py lines 66-72). -/
def extract_qnum (kerdes : String) : Option String :=
  (extract_qnum_core kerdes.data).map String.mk

/-- The leading-pattern predicate actually recognised by `extract_qnum`:
after optional leading whitespace the text starts with one or more digits,
a period, and at least two further digits. -/
def HasLeadingMajMin2 (s : String) : Prop :=
  ∃ (ws maj : List Char) (a b : Char) (rest : List Char),
    s.data = ws ++ maj ++ '.' :: a :: b :: rest ∧
    (∀ c ∈ ws, isPySpace c) ∧ maj ≠ [] ∧ (∀ c ∈ maj, c.isDigit) ∧
    a.isDigit ∧ b.isDigit

lemma isPySpace_eq_false_of_digit {c : Char} (h : c.isDigit = true) :
    isPySpace c = false := by
  cases hs : isPySpace c with
  | false => rfl
  | true =>
    simp only [isPySpace, Bool.or_eq_true, decide_eq_true_eq] at hs
    rcases hs with ((((rfl | rfl) | rfl) | rfl) | rfl) | rfl <;>
      exact absurd h (by decide)

lemma dropWhile_append_of_forall {p : Char → Bool} :
    ∀ (ws l : List Char), (∀ c ∈ ws, p c = true) →
      List.dropWhile p (ws ++ l) = List.dropWhile p l := by
  intro ws
  induction ws with
  | nil => simp
  | cons c t ih =>
    intro l h
    have hc : p c = true := h c (by simp)
    simpa [List.dropWhile_cons, hc] using ih l (fun x hx => h x (by simp [hx]))

lemma dropWhile_cons_of_neg {p : Char → Bool} {c : Char} (l : List Char)
    (h : p c = false) : List.dropWhile p (c :: l) = c :: l := by
  simp [List.dropWhile_cons, h]

lemma takeWhile_append_stop {p : Char → Bool} :
    ∀ (maj : List Char) (c : Char) (l : List Char),
      (∀ x ∈ maj, p x = true) → p c = false →
      List.takeWhile p (maj ++ c :: l) = maj := by
  intro maj
  induction maj with
  | nil => intro c l _ hc; simp [List.takeWhile_cons, hc]
  | cons m t ih =>
    intro c l h hc
    have hm : p m = true := h m (by simp)
    simpa [List.takeWhile_cons, hm] using ih c l (fun x hx => h x (by simp [hx])) hc

lemma dropWhile_append_stop {p : Char → Bool} :
    ∀ (maj : List Char) (c : Char) (l : List Char),
      (∀ x ∈ maj, p x = true) → p c = false →
      List.dropWhile p (maj ++ c :: l) = c :: l := by
  intro maj c l h hc
  rw [dropWhile_append_of_forall maj (c :: l) h, dropWhile_cons_of_neg l hc]

lemma mem_takeWhile_sat {p : Char → Bool} :
    ∀ (l : List Char) (c : Char), c ∈ l.takeWhile p → p c = true := by
  intro l
  induction l with
  | nil => intro c h; simp [List.takeWhile] at h
  | cons a t ih =>
    intro c h
    by_cases ha : p a = true
    · rw [List.takeWhile_cons, if_pos ha] at h
      rcases List.mem_cons.mp h with rfl | h
      · exact ha
      · exact ih c h
    · rw [List.takeWhile_cons, if_neg ha] at h
      simp at h

lemma twoDigitsAfterDot_some {u : List Char} {a b : Char}
    (h : twoDigitsAfterDot u = some (a, b)) :
    ∃ r, u = '.' :: a :: b :: r ∧ a.isDigit = true ∧ b.isDigit = true := by
  cases u with
  | nil => simp [twoDigitsAfterDot] at h
  | cons c u1 =>
    cases u1 with
    | nil => simp [twoDigitsAfterDot] at h
    | cons x u2 =>
      cases u2 with
      | nil => simp [twoDigitsAfterDot] at h
      | cons y r =>
        rw [show twoDigitsAfterDot (c :: x :: y :: r)
            = if c = '.' && x.isDigit && y.isDigit then some (x, y) else none
          from rfl] at h
        by_cases hc : (c = '.' && x.isDigit && y.isDigit) = true
        · rw [if_pos hc] at h
          obtain ⟨rfl, rfl⟩ : x = a ∧ y = b := by simpa using h
          obtain ⟨⟨rfl, hx⟩, hy⟩ :
              (c = '.' ∧ x.isDigit = true) ∧ y.isDigit = true := by
            simpa [Bool.and_eq_true, decide_eq_true_eq] using hc
          exact ⟨r, rfl, hx, hy⟩
        · rw [if_neg hc] at h; simp at h

/-- Positive direction of the `extract_qnum` characterisation: on text that
begins (after whitespace) with a digit run, a period and two digits, the
captured identifier is the digit run, the period, and exactly the next two
digits — no zero-padding, and any further digits are cut off. -/
lemma extract_qnum_of_decomp (s : String) (ws maj : List Char) (a b : Char)
    (rest : List Char) (hdecomp : s.data = ws ++ maj ++ '.' :: a :: b :: rest)
    (hws : ∀ c ∈ ws, isPySpace c = true) (hmaj : maj ≠ [])
    (hdig : ∀ c ∈ maj, c.isDigit = true) (ha : a.isDigit = true)
    (hb : b.isDigit = true) :
    extract_qnum s = some (String.mk (maj ++ ['.', a, b])) := by
  obtain ⟨m, t, rfl⟩ : ∃ m t, maj = m :: t := by
    cases maj with
    | nil => exact absurd rfl hmaj
    | cons m t => exact ⟨m, t, rfl⟩
  have hrest : s.data.dropWhile isPySpace = (m :: t) ++ '.' :: a :: b :: rest := by
    rw [hdecomp, List.append_assoc, dropWhile_append_of_forall ws _ hws]
    exact dropWhile_cons_of_neg _ (isPySpace_eq_false_of_digit (hdig m (by simp)))
  have hdot : ('.' : Char).isDigit = false := by decide
  have hmaj' : (s.data.dropWhile isPySpace).takeWhile Char.isDigit = m :: t := by
    rw [hrest]; exact takeWhile_append_stop (m :: t) '.' _ hdig hdot
  have hdrop : (s.data.dropWhile isPySpace).dropWhile Char.isDigit
      = '.' :: a :: b :: rest := by
    rw [hrest]; exact dropWhile_append_stop (m :: t) '.' _ hdig hdot
  have htwo : twoDigitsAfterDot ((s.data.dropWhile isPySpace).dropWhile Char.isDigit)
      = some (a, b) := by
    rw [hdrop]
    simp [twoDigitsAfterDot, ha, hb]
  unfold extract_qnum extract_qnum_core
  rw [hmaj', htwo]
  simp

/-- Negative direction: a successful `extract_qnum` yields the leading
pattern, so text without it gets `none`. -/
lemma extract_qnum_eq_none (s : String) (h : ¬ HasLeadingMajMin2 s) :
    extract_qnum s = none := by
  cases hx : extract_qnum_core s.data with
  | none => unfold extract_qnum; rw [hx]; rfl
  | some r =>
    exfalso
    apply h
    unfold extract_qnum_core at hx
    by_cases hA : (s.data.dropWhile isPySpace).takeWhile Char.isDigit = []
    · rw [if_pos hA] at hx; simp at hx
    · rw [if_neg hA] at hx
      cases hB : twoDigitsAfterDot ((s.data.dropWhile isPySpace).dropWhile Char.isDigit) with
      | none => rw [hB] at hx; simp at hx
      | some ab =>
        obtain ⟨a, b⟩ := ab
        obtain ⟨r2, hu, ha, hb⟩ := twoDigitsAfterDot_some hB
        refine ⟨s.data.takeWhile isPySpace,
          (s.data.dropWhile isPySpace).takeWhile Char.isDigit, a, b, r2,
          ?_, ?_, hA, ?_, ha, hb⟩
        · conv_lhs => rw [← List.takeWhile_append_dropWhile (p := isPySpace) (l := s.data)]
          rw [List.append_assoc]
          congr 1
          conv_lhs =>
            rw [← List.takeWhile_append_dropWhile (p := Char.isDigit)
              (l := s.data.dropWhile isPySpace)]
          rw [hu]
        · intro x hx2; exact mem_takeWhile_sat s.data x hx2
        · intro x hx2; exact mem_takeWhile_sat _ x hx2

/-- Claim C1, counterexample: the claim says a one-digit minor is
zero-padded, so `"1.1. Mi az atom?"` should yield `"1.01"`.  The code's
pattern `^\s*(\d+\.\d{2})` requires exactly two minor digits at that
position, so extraction fails on this input and returns no identifier. -/
theorem c1_counterexample :
    extract_qnum "1.1. Mi az atom?" = none ∧
    extract_qnum "1.1. Mi az atom?" ≠ some "1.01" := by
  constructor
  · decide
  · decide

/-- Claim C1 (amended): identifier extraction succeeds exactly on question
strings whose text begins (after optional leading whitespace) with a
numbering `major.minor` in which at least two minor digits follow the
period; it returns the major part unchanged and exactly the first two minor
digits, with no zero-padding (a one-digit minor yields no identifier, a
three-digit minor is truncated to its first two digits).  In particular
`"2.10. Mi a pH?"` yields `"2.10"`, while `"1.1. Mi az atom?"`, and any
string with no leading numeric pattern such as `"Mi a pH?"`, yield no
identifier, and `"1.100 x"` yields `"1.10"`. -/
theorem c1_extract_qnum_amended :
    (∀ (s : String) (ws maj : List Char) (a b : Char) (rest : List Char),
        s.data = ws ++ maj ++ '.' :: a :: b :: rest →
        (∀ c ∈ ws, isPySpace c = true) → maj ≠ [] →
        (∀ c ∈ maj, c.isDigit = true) → a.isDigit = true → b.isDigit = true →
        extract_qnum s = some (String.mk (maj ++ ['.', a, b]))) ∧
    (∀ s : String, ¬ HasLeadingMajMin2 s → extract_qnum s = none) ∧
    extract_qnum "2.10. Mi a pH?" = some "2.10" ∧
    extract_qnum "1.1. Mi az atom?" = none ∧
    extract_qnum "Mi a pH?" = none ∧
    extract_qnum "1.100 x" = some "1.10" :=
  ⟨extract_qnum_of_decomp, extract_qnum_eq_none,
    by decide, by decide, by decide, by decide⟩

/-- Concrete instance of the amended C1 theorem, evaluated at
`"  12.345"`. -/
theorem c1_extract_qnum_amended_witness :
    extract_qnum "  12.345" = some "12.34" := by
  have h := c1_extract_qnum_amended.1 "  12.345" [' ', ' '] ['1', '2'] '3' '4'
    ['5'] (by decide) (by decide) (by decide) (by decide) (by decide) (by decide)
  simpa using h

/-!  The shared answer splitter of `molsejt/qa_utils.py` (lines 29-89).  -/

/-- Python `str.splitlines()`: a line ends at `\n`, `\r`, or `\r\n`; a
trailing terminator does not open an extra empty line.  (The rarer Unicode
line breaks recognised by Python do not occur in this pipeline.) -/
def pySplitlines : List Char → List (List Char)
  | [] => []
  | '\r' :: '\n' :: rest => [] :: pySplitlines rest
  | '\r' :: rest => [] :: pySplitlines rest
  | '\n' :: rest => [] :: pySplitlines rest
  | c :: rest =>
    match pySplitlines rest with
    | [] => [[c]]
    | ln :: lns => (c :: ln) :: lns

/-- The newline normalisation at qa_utils.py line 82:
`cell.replace("\r\n", "\n").replace("\r", "\n")`. -/
def normalizeNewlines : List Char → List Char
  | [] => []
  | '\r' :: '\n' :: rest => '\n' :: normalizeNewlines rest
  | '\r' :: rest => '\n' :: normalizeNewlines rest
  | c :: rest => c :: normalizeNewlines rest

/-- One position of the guard `re.search(r"(?m)^\s*\-\s+", text)`: at a line
start, `\s*` (which may cross line breaks) followed by `-` followed by at
least one whitespace character. -/
def bulletAt (l : List Char) : Bool :=
  match l.dropWhile isPySpace with
  | '-' :: c :: _ => isPySpace c
  | _ => false

/-- Auxiliary scan of `hasBulletStart`: tries `bulletAt` after every `\n`. -/
def hasBulletAux : List Char → Bool
  | [] => false
  | c :: rest => (if c = '\n' then bulletAt rest else false) || hasBulletAux rest

/-- The guard `re.search(r"(?m)^\s*\-\s+", text)` (qa_utils.py line 36):
some line start (the start of the text or the position after a `\n`) is
followed by optional whitespace, a hyphen, and a whitespace character. -/
def hasBulletStart (l : List Char) : Bool :=
  bulletAt l || hasBulletAux l

/-- The per-line bullet match `re.match(r"^\s*\-\s+(.*)", ln)`
(qa_utils.py line 43) on a single line (no `\n` inside): leading whitespace,
a hyphen, at least one whitespace character (the greedy `\s+` takes the
whole run), and the captured remainder. -/
def bulletLineMatch (ln : List Char) : Option (List Char) :=
  match ln.dropWhile isPySpace with
  | x :: rest =>
    if x = '-' && !(rest.takeWhile isPySpace).isEmpty then
      some (rest.dropWhile isPySpace)
    else none
  | [] => none

/-- `"\n".join(current)` on character lists. -/
def joinLines : List (List Char) → List Char
  | [] => []
  | [l] => l
  | l :: r :: rest => l ++ '\n' :: joinLines (r :: rest)

/-- The accumulation loop of `_split_line_bullets_multiline`
(qa_utils.py lines 42-54): each bullet line opens a new answer, non-bullet
lines are appended (right-stripped) to the current bullet once one is open,
and a finished bullet group is joined with `\n` and right-stripped. -/
def bulletLoop : List (List Char) → List (List Char) → Bool → List (List Char)
  | [], cur, _ => if cur = [] then [] else [pyStripR (joinLines cur)]
  | ln :: rest, cur, inb =>
    match bulletLineMatch ln with
    | some g =>
      if cur = [] then bulletLoop rest [g] true
      else pyStripR (joinLines cur) :: bulletLoop rest [g] true
    | none =>
      if inb then bulletLoop rest (cur ++ [pyStripR ln]) inb
      else bulletLoop rest cur inb

/-- `_split_line_bullets_multiline` (qa_utils.py lines 32-55). -/
def _split_line_bullets_multiline (text : String) : List String :=
  if pyStripC text.data = [] then []
  else if ¬ hasBulletStart text.data then []
  else
    ((bulletLoop (pySplitlines text.data) [] false).filter
      (fun a => pyStripC a ≠ [])).map String.mk

example : _split_line_bullets_multiline "- a\n- b" = ["a", "b"] := by decide
example : _split_line_bullets_multiline "- a; b" = ["a; b"] := by decide
example : _split_line_bullets_multiline "x - y" = [] := by decide
example : _split_line_bullets_multiline "- foo\n  bar\n- baz" =
    ["foo\n  bar", "baz"] := by decide
example : _split_line_bullets_multiline "-\nx" = [] := by decide

/-- The guard `re.search(r"\s-\s+", s)` (qa_utils.py line 63): somewhere in
the text, a whitespace character, a hyphen, and a whitespace character (the
first character of `\s+`) in a row. -/
def hasWsHyphenWs : List Char → Bool
  | [] => false
  | a :: rest =>
    (match rest with
     | '-' :: c :: _ => isPySpace a && isPySpace c
     | _ => false) || hasWsHyphenWs rest

/-- Scanner for `re.split(r"\s-\s+", s)` (qa_utils.py line 64).  First
argument: `true` while consuming the greedy `\s+` tail of a separator just
matched.  In scanning mode, a whitespace character followed by a hyphen and
a whitespace character is the leftmost separator match: the piece collected
so far is emitted and the `\s+` run is consumed.  A non-whitespace character
ends a `\s+` run (it cannot itself begin a separator, which starts with
whitespace). -/
def sepLookahead : List Char → Bool
  | '-' :: c :: _ => isPySpace c
  | _ => false

def reSplitHyphenAux : Nat → List Char → List Char → List (List Char)
  | _, [], acc => [acc.reverse]
  | 0, a :: rest, acc =>
    if isPySpace a && sepLookahead rest then
      acc.reverse :: reSplitHyphenAux 1 rest []
    else reSplitHyphenAux 0 rest (a :: acc)
  | 1, _ :: rest, acc => reSplitHyphenAux 2 rest acc
  | 2, _ :: rest, acc => reSplitHyphenAux 3 rest acc
  | 3, c :: rest, acc =>
    if isPySpace c then reSplitHyphenAux 3 rest acc
    else reSplitHyphenAux 0 rest (c :: acc)
  | _ + 4, _ :: _, acc => [acc.reverse]

/-- `re.split(r"\s-\s+", s)`: repeatedly cut at the leftmost occurrence of
one whitespace character, a hyphen, and a maximal nonempty whitespace run
(the scanner modes of `reSplitHyphenAux`: 0 scans for the next separator,
1 and 2 consume the hyphen and the first whitespace of a just-found
separator, 3 consumes the rest of that greedy whitespace run; mode 4 and up
is unreachable). -/
def reSplitHyphen (l : List Char) : List (List Char) :=
  reSplitHyphenAux 0 l []

/-- Python `s.strip(" ;")`: remove spaces and semicolons from both ends. -/
def stripSpaceSemi (l : List Char) : List Char :=
  let isCut : Char → Bool := fun c => c = ' ' || c = ';'
  ((l.dropWhile isCut).reverse.dropWhile isCut).reverse

/-- Python `s.split(";")` on character lists (keeps empty pieces). -/
def splitOnSemi : List Char → List (List Char)
  | [] => [[]]
  | ';' :: rest => [] :: splitOnSemi rest
  | c :: rest =>
    match splitOnSemi rest with
    | [] => [[c]]
    | p :: ps => (c :: p) :: ps

/-- `_split_inline_hyphen_semicolon` (qa_utils.py lines 58-69): strip the
cell; if `\s-\s+` occurs, split on it and strip spaces/semicolons from the
pieces; else if a semicolon occurs, split on semicolons and strip the
pieces; else the whole stripped cell is the single piece.  Empty pieces are
dropped; an empty cell gives no pieces. -/
def _split_inline_hyphen_semicolon (text : String) : List String :=
  let s := pyStripC text.data
  if s = [] then []
  else if hasWsHyphenWs s then
    ((reSplitHyphen s).map stripSpaceSemi).filterMap
      (fun p => if p = [] then none else some (String.mk p))
  else if s.contains ';' then
    ((splitOnSemi s).map pyStripC).filterMap
      (fun p => if p = [] then none else some (String.mk p))
  else [String.mk s]

/-- `_answers_from_cell` (qa_utils.py lines 72-89): normalise newlines and
strip, then try the bullet split, then the inline split, then the whole
trimmed cell (or nothing when it is empty).  `None` cells give no answers. -/
def _answers_from_cell (cell : Option String) : List String :=
  match cell with
  | none => []
  | some c =>
    let txt := String.mk (pyStripC (normalizeNewlines c.data))
    let bullets := _split_line_bullets_multiline txt
    if bullets ≠ [] then bullets
    else
      let inline := _split_inline_hyphen_semicolon txt
      if inline ≠ [] then inline
      else if txt ≠ "" then [txt] else []

/-!
Question banks and CSV rows.  A Python `dict` is modelled as an association
list in insertion order; real dicts have pairwise-distinct keys, which
theorems quantifying over arbitrary banks carry as a `Nodup` hypothesis.
-/

/-- A `csv.DictReader` row: column name to cell text, in header order. -/
abbrev Row := List (String × String)

/-- A question bank: canonical question text to its answer list. -/
abbrev Bank := List (String × List String)

/-- `row.get(col, "")` on a `DictReader` row (a missing or `None` cell reads
as the empty string, as `... or ""` makes it in the source). -/
def rowGet (row : Row) (col : String) : String :=
  match row.find? (fun p => p.1 = col) with
  | some p => p.2
  | none => ""

/-- Dict lookup on a bank (`qa[q]` / `q in qa`). -/
def bankGet (d : Bank) (q : String) : Option (List String) :=
  match d.find? (fun p => p.1 = q) with
  | some p => some p.2
  | none => none

/-- Dict assignment `d[k] = v`: an existing key keeps its position and gets
the new value, a new key is appended at the end. -/
def bankSet (d : Bank) (k : String) (v : List String) : Bank :=
  if (d.find? (fun p => p.1 = k)).isSome then
    d.map (fun p => if p.1 = k then (k, v) else p)
  else d ++ [(k, v)]

/-- The dict comprehension of `_find_column` (qa_utils.py line 22):
`{k.strip().lower(): k for k in row.keys()}` — later keys with the same
normalised form overwrite earlier ones. -/
def lowerMap (keys : List String) : List (String × String) :=
  keys.foldl
    (fun m k =>
      let key := pyLower (pyStrip k)
      if (m.find? (fun p => p.1 = key)).isSome then
        m.map (fun p => if p.1 = key then (key, k) else p)
      else m ++ [(key, k)])
    []

/-- `_find_column(row, *candidates)` (qa_utils.py lines 20-26): the first
candidate present in the normalised key map, giving the original column
name. -/
def _find_column (row : Row) (candidates : List String) : Option String :=
  let m := lowerMap (row.map Prod.fst)
  candidates.findSome? (fun cand => (m.find? (fun p => p.1 = cand)).map Prod.snd)

/-- The duplicate-question merge of `beolvas_csv_dict` (qa_utils.py lines
126-134): keep the first occurrence of each stripped-lowercased answer form,
appending the stripped answer, and dropping answers that strip to
nothing. -/
def dedupStripLower : List String → List String → List String
  | _, [] => []
  | seen, a :: rest =>
    let key := pyLower (pyStrip a)
    if key ≠ "" && !(seen.contains key) then
      pyStrip a :: dedupStripLower (key :: seen) rest
    else dedupStripLower seen rest

/-- One row of the `beolvas_csv_dict` loop (qa_utils.py lines 118-136). -/
def beolvasStep (qCol aCol : String) (qa : Bank) (row : Row) : Bank :=
  let question := pyStrip (rowGet row qCol)
  let answerRaw := rowGet row aCol
  if question = "" then qa
  else
    let answers := _answers_from_cell (some answerRaw)
    match bankGet qa question with
    | some old => bankSet qa question (dedupStripLower [] (old ++ answers))
    | none => bankSet qa question answers

/-- `PyError`: the error kinds of the spec (§7), standing for the exceptions
the Python code raises — `ValueError` at the empty-source and no-rows sites
is `formatError`, `KeyError` at the header site is `configError`, the
too-many-questions `ValueError`s are `validationError`, and the two
remaining argument-check `ValueError`s of `valassz_forras_es_kerdesek` get
their own constructors. -/
inductive PyError where
  | formatError
  | configError
  | validationError
  | invalidMode
  | nonPositive
  deriving DecidableEq, Repr

/-- `beolvas_csv_dict` (molsejt/qa_utils.py lines 92-140) from the list of
`DictReader` rows (file access and CSV dialect detection read the file into
exactly this row list and are outside the embedding). -/
def beolvas_csv_dict (rows : List Row) : Except PyError Bank :=
  match rows with
  | [] => .error .formatError
  | row0 :: _ =>
    match _find_column row0 ["question", "questions"],
        _find_column row0 ["answer", "answers"] with
    | some qCol, some aCol =>
      let qa := rows.foldl (beolvasStep qCol aCol) []
      if qa = [] then .error .formatError else .ok qa
    | _, _ => .error .configError

/-- The answer-list normalisation applied by `_osszefesul_qa` when a
question is first seen (qa_utils.py line 164):
`[a.strip() for a in ans_list if a and a.strip()]`. -/
def stripFilter (l : List String) : List String :=
  (l.filter (fun a => a ≠ "" && pyStrip a ≠ "")).map pyStrip

/-- The duplicate-question merge of `_osszefesul_qa` (qa_utils.py lines
167-174): keep the first occurrence of each lowercased answer form, the
answer itself unchanged. -/
def dedupLower : List String → List String → List String
  | _, [] => []
  | seen, a :: rest =>
    let key := pyLower a
    if key ≠ "" && !(seen.contains key) then
      a :: dedupLower (key :: seen) rest
    else dedupLower seen rest

/-- One bank entry folded into the accumulator of `_osszefesul_qa`
(qa_utils.py lines 162-174). -/
def osszefesulStep (vegyes : Bank) (q : String) (ansList : List String) : Bank :=
  match bankGet vegyes q with
  | none => bankSet vegyes q (stripFilter ansList)
  | some cur => bankSet vegyes q (dedupLower [] (cur ++ stripFilter ansList))

/-- `_osszefesul_qa(*qadictok)` (qa_utils.py lines 155-175). -/
def _osszefesul_qa (qadictok : List Bank) : Bank :=
  qadictok.foldl
    (fun vegyes qa => qa.foldl (fun v p => osszefesulStep v p.1 p.2) vegyes) []

example : beolvas_csv_dict [[("question", "Q?"), ("answer", "A; a")]]
    = .ok [("Q?", ["A", "a"])] := rfl
example : beolvas_csv_dict [] = .error .formatError := rfl
example : beolvas_csv_dict [[("kerdes", "Q?"), ("answer", "A")]]
    = .error .configError := rfl
example : beolvas_csv_dict [[("Question ", "Q?"), ("ANSWER", "A")]]
    = .ok [("Q?", ["A"])] := rfl
example : beolvas_csv_dict [[("question", " "), ("answer", "A")]]
    = .error .formatError := rfl
example : beolvas_csv_dict
      [[("question", "Q?"), ("answer", "A")],
       [("question", " Q? "), ("answer", "a; B")]]
    = .ok [("Q?", ["A", "B"])] := rfl
example : _osszefesul_qa [[("q", ["Foo"])], [("q", ["foo"])]]
    = [("q", ["Foo"])] := by decide
example : _osszefesul_qa [[("q", ["foo"])], [("q", ["Foo"])]]
    = [("q", ["foo"])] := by decide
example : _osszefesul_qa [[("q", [" x", ""])]] = [("q", ["x"])] := by decide

example : _answers_from_cell (some "a - b - c") = ["a", "b", "c"] := by decide
example : _answers_from_cell (some "A; a") = ["A", "a"] := by decide
example : _answers_from_cell (some "a -b; c") = ["a -b", "c"] := by decide
example : _answers_from_cell (some "- a; b") = ["a; b"] := by decide
example : _answers_from_cell (some "a; b") = ["a", "b"] := by decide
example : _answers_from_cell (some "H2O / dihidrogén-oxid")
    = ["H2O / dihidrogén-oxid"] := by decide
example : _answers_from_cell (some "  ") = [] := by decide
example : _answers_from_cell none = [] := by decide
example : _answers_from_cell (some "x ;; y") = ["x", "y"] := by decide

/-!
Random sampling (qa_utils.py lines 143-149 and 178-247, app_kemia.py lines
106-111).  `random` is modelled by an entropy function `g : Nat → Nat`:
draw `i` of a run uses `g i`.  `random.sample(pop, k)` draws `k` times
without replacement (each draw picks an index into the remaining pool);
`random.shuffle(l)` is the full-length draw, a permutation.
-/

/-- A draw without replacement: `k` picks from `pool`, the `i`-th pick
selecting position `g i % pool.length` of what remains.  Models
`random.sample(pool, k)` for `k ≤ pool.length` (the claims about sampling
are distribution-free, so the index choice is left to the entropy). -/
def pySample (g : Nat → Nat) : Nat → List String → Nat → List String
  | _, _, 0 => []
  | i, pool, k + 1 =>
    if pool = [] then []
    else
      let idx := g i % pool.length
      pool.getD idx "" :: pySample g (i + 1) (pool.eraseIdx idx) k

/-- `random.shuffle` as the full-length draw without replacement, starting
at entropy position `i0`: a permutation of the list. -/
def pyShuffle (g : Nat → Nat) (i0 : Nat) (l : List String) : List String :=
  pySample g i0 l l.length

/-- `valassz_kerdeseket` (molsejt/qa_utils.py lines 143-149):
`random.sample(list(qa.keys()), n)` behind the size check. -/
def valassz_kerdeseket (g : Nat → Nat) (i0 : Nat) (qa : Bank) (n : Nat) :
    Except PyError (List String) :=
  if n > qa.length then .error .validationError
  else .ok (pySample g i0 (qa.map Prod.fst) n)

/-- `valassz_kerdeseket` (app_kemia.py lines 106-111): when the bank has at
most `db` questions it returns all keys shuffled, otherwise a `db`-element
sample; it never raises. -/
def valassz_kerdeseket_app (g : Nat → Nat) (qa : Bank) (db : Nat) :
    List String :=
  let keys := qa.map Prod.fst
  if keys.length ≤ db then pyShuffle g 0 keys
  else pySample g 0 keys db

/-- `valassz_forras_es_kerdesek` (molsejt/qa_utils.py lines 178-247).  The
two CSV files are read by `beolvas_csv_dict`; the embedding takes the two
parsed banks in their place (a failed parse propagates its error before any
of this code runs).  Entropy positions: the first sample starts at 0, the
second after it, the shuffle after both. -/
def valassz_forras_es_kerdesek (g : Nat → Nat) (mod : String) (n : Nat)
    (qa1 qa2 : Bank) : Except PyError (List String × Bank) :=
  let modNorm := pyLower (pyStrip mod)
  if ¬ (modNorm = "1" ∨ modNorm = "2" ∨ modNorm = "3" ∨ modNorm = "szigorlat")
  then .error .invalidMode
  else if n = 0 then .error .nonPositive
  else if modNorm = "1" then
    if n > qa1.length then .error .validationError
    else
      match valassz_kerdeseket g 0 qa1 n with
      | .error e => .error e
      | .ok kerd => .ok (kerd, qa1)
  else if modNorm = "2" then
    if n > qa2.length then .error .validationError
    else
      match valassz_kerdeseket g 0 qa2 n with
      | .error e => .error e
      | .ok kerd => .ok (kerd, qa2)
  else
    let n1 := (n + 1) / 2
    let n2 := n - n1
    if n1 > qa1.length ∨ n2 > qa2.length then .error .validationError
    else
      match valassz_kerdeseket g 0 qa1 n1, valassz_kerdeseket g n1 qa2 n2 with
      | .ok kerd1, .ok kerd2 =>
        .ok (pyShuffle g n (kerd1 ++ kerd2), _osszefesul_qa [qa1, qa2])
      | .error e, _ => .error e
      | _, .error e => .error e

example : pySample (fun _ => 0) 0 ["a", "b", "c"] 2 = ["a", "b"] := by decide
example : pySample (fun i => i) 0 ["a", "b", "c"] 3 = ["a", "c", "b"] := by decide
example : valassz_kerdeseket_app (fun _ => 0) [("Q", ["A"])] 2 = ["Q"] := rfl
example : valassz_kerdeseket (fun _ => 0) 0 [("Q", ["A"])] 2
    = .error .validationError := rfl
example : (11 + 1) / 2 = 6 := by decide

/-!  `beolvas_csv` of orvosi_kemia/app_kemia.py (lines 20-61).  -/

/-- The header map of app_kemia.py line 33:
`{c.lower().strip(): c for c in reader.fieldnames}` (lower before strip;
later duplicates overwrite). -/
def lowerMapApp (keys : List String) : List (String × String) :=
  keys.foldl
    (fun m k =>
      let key := pyStrip (pyLower k)
      if (m.find? (fun p => p.1 = key)).isSome then
        m.map (fun p => if p.1 = key then (key, k) else p)
      else m ++ [(key, k)])
    []

/-- `fn.get(name)` on the header map.  The Python `or`-chains at lines
34-35 fall through on `None` and on an empty string; a stored value here is
an original header whose normalised form equals the looked-up candidate, so
it is never empty and `Option.orElse` is faithful. -/
def fnGet (m : List (String × String)) (k : String) : Option String :=
  (m.find? (fun p => p.1 = k)).map Prod.snd

/-- `re.split(r"([!?])", q_raw, maxsplit=1)` (app_kemia.py line 43), when a
match exists: the text before the first `!` or `?`, that character, and the
text after it. -/
def splitFirstBangQ : List Char → Option (List Char × Char × List Char)
  | [] => none
  | c :: rest =>
    if c = '!' || c = '?' then some ([], c, rest)
    else (splitFirstBangQ rest).map (fun t => (c :: t.1, t.2.1, t.2.2))

/-- `re.split(r";|\n", a_raw)` (app_kemia.py line 52): split at every
semicolon or newline, keeping empty pieces. -/
def splitOnSemiNl : List Char → List (List Char)
  | [] => [[]]
  | c :: rest =>
    if c = ';' || c = '\n' then [] :: splitOnSemiNl rest
    else
      match splitOnSemiNl rest with
      | [] => [[c]]
      | p :: ps => (c :: p) :: ps

/-- One row of the `beolvas_csv` loop (app_kemia.py lines 37-59). -/
def beolvasAppStep (cQ cA : Option String) (qa : Bank) (row : Row) : Bank :=
  let qRaw0 := match cQ with | some c => pyStrip (rowGet row c) | none => ""
  let aRaw0 := match cA with | some c => pyStrip (rowGet row c) | none => ""
  let qa' :=
    if aRaw0 = "" ∧ qRaw0 ≠ "" then
      match splitFirstBangQ qRaw0.data with
      | some t =>
        (pyStrip (String.mk (t.1 ++ [t.2.1])), pyStrip (String.mk t.2.2))
      | none => (qRaw0, aRaw0)
    else (qRaw0, aRaw0)
  if qa'.1 = "" then qa
  else
    let answers :=
      if qa'.2 ≠ "" then
        let parts :=
          ((splitOnSemiNl qa'.2.data).map pyStripC).filter (fun p => p ≠ [])
        if parts = [] then [""] else parts.map String.mk
      else [""]
    bankSet qa qa'.1 answers

/-- `beolvas_csv` (app_kemia.py lines 20-61) from the reader's field names
and rows.  `reader.fieldnames` is `None` exactly when the file is empty,
modelled as the empty list; the function then returns the empty mapping —
it never raises for empty input or unresolvable columns. -/
def beolvas_csv (fieldnames : List String) (rows : List Row) : Bank :=
  if fieldnames = [] then []
  else
    let fn := lowerMapApp fieldnames
    let cQ := ((fnGet fn "question").orElse (fun _ => fnGet fn "kerdes")).orElse
      (fun _ => fnGet fn "kérdés")
    let cA := ((fnGet fn "answer").orElse (fun _ => fnGet fn "valasz")).orElse
      (fun _ => fnGet fn "válasz")
    rows.foldl (beolvasAppStep cQ cA) []

example : beolvas_csv [] [] = [] := rfl
example : beolvas_csv ["x"] [[("x", "hello")]] = [] := rfl
example : beolvas_csv ["question", "answer"]
    [[("question", "Mi a só?"), ("answer", "NaCl; kősó")]]
    = [("Mi a só?", ["NaCl", "kősó"])] := by decide
example : beolvas_csv ["question"]
    [[("question", "1.01. Mi a pH? savasság mértéke")]]
    = [("1.01. Mi a pH?", ["savasság mértéke"])] := by decide
example : beolvas_csv ["question", "answer"]
    [[("question", "Mi a víz?"), ("answer", "")]]
    = [("Mi a víz?", [""])] := by decide

/-!  The numbered-header block parser of orvosi_kemai/qa_utils_kemia.py.  -/

/-- The accumulation loop of `_parse_answers_block` (qa_utils_kemia.py
lines 29-53): like the molsejt bullet loop, but a finished bullet group is
joined with `\n` and stripped on both ends. -/
def parseBlockLoop : List (List Char) → List (List Char) → Bool → List (List Char)
  | [], cur, _ => if cur = [] then [] else [pyStripC (joinLines cur)]
  | ln :: rest, cur, inb =>
    match bulletLineMatch ln with
    | some g =>
      if cur = [] then parseBlockLoop rest [g] true
      else pyStripC (joinLines cur) :: parseBlockLoop rest [g] true
    | none =>
      if inb then parseBlockLoop rest (cur ++ [pyStripR ln]) inb
      else parseBlockLoop rest cur inb

/-- `_parse_answers_block` (qa_utils_kemia.py lines 12-62): bullet groups,
else the whole stripped block as a single answer when it is non-empty;
answers that strip to nothing are dropped. -/
def _parse_answers_block (block : String) : List String :=
  let answers := parseBlockLoop (pySplitlines block.data) [] false
  let answers2 :=
    if answers = [] ∧ pyStripC block.data ≠ [] then [pyStripC block.data]
    else answers
  (answers2.filter (fun a => pyStripC a ≠ [])).map String.mk

/-- `beolvas_csv_dict` (qa_utils_kemia.py lines 65-111) given the list of
`(question capture, following answer block)` pairs produced in order by
`QUESTION_HEADER_RE.finditer` over the file text (the regex scan that
locates the numbered headers is not embedded; the loop at lines 100-109,
which is what claim C10 is about, is).  No match at all is the
`FormatError` site (line 92-96). -/
def beolvas_csv_dict_kemia (ms : List (String × String)) :
    Except PyError Bank :=
  match ms with
  | [] => .error .formatError
  | _ =>
    .ok (ms.foldl
      (fun qa m => bankSet qa (pyStrip m.1) (_parse_answers_block m.2)) [])

example : _parse_answers_block "\n- v1\n- v2 tobb\n  sor\n" =
    ["v1", "v2 tobb\n  sor"] := by decide
example : _parse_answers_block "  szoveg bullet nelkul  " =
    ["szoveg bullet nelkul"] := by decide
example : _parse_answers_block "   " = [] := by decide
example : beolvas_csv_dict_kemia [("Q", "- a"), ("Q ", "- b")]
    = .ok [("Q", ["b"])] := rfl
example : beolvas_csv_dict_kemia [] = .error .formatError := rfl

/-!  Lemmas about stripping.  -/

lemma head?_pyStripL_not {l : List Char} {c : Char}
    (h : (pyStripL l).head? = some c) : isPySpace c = false := by
  have hd := List.head?_dropWhile_not isPySpace l
  rw [pyStripL] at h
  rw [h] at hd
  exact hd

lemma pyStripL_eq_self {l : List Char}
    (h : ∀ c, l.head? = some c → isPySpace c = false) : pyStripL l = l := by
  cases l with
  | nil => rfl
  | cons a t =>
    have := h a rfl
    simp [pyStripL, List.dropWhile_cons, this]

lemma pyStripR_eq_self {l : List Char}
    (h : ∀ c, l.reverse.head? = some c → isPySpace c = false) :
    pyStripR l = l := by
  unfold pyStripR
  have : l.reverse.dropWhile isPySpace = l.reverse := by
    cases hr : l.reverse with
    | nil => rfl
    | cons a t =>
      have ha := h a (by rw [hr]; rfl)
      simp [List.dropWhile_cons, ha]
  rw [this, List.reverse_reverse]

lemma pyStripR_isPrefixOf (l : List Char) : ∃ t, pyStripR l ++ t = l := by
  have hsuf : l.reverse.dropWhile isPySpace <:+ l.reverse :=
    List.dropWhile_suffix isPySpace
  obtain ⟨t, ht⟩ := hsuf
  refine ⟨t.reverse, ?_⟩
  have := congrArg List.reverse ht
  simpa [pyStripR] using this

lemma head?_pyStripC_not {l : List Char} {c : Char}
    (h : (pyStripC l).head? = some c) : isPySpace c = false := by
  obtain ⟨t, ht⟩ := pyStripR_isPrefixOf (pyStripL l)
  apply head?_pyStripL_not (l := l)
  rw [pyStripC] at h
  cases hy : pyStripR (pyStripL l) with
  | nil => rw [hy] at h; simp at h
  | cons b u =>
    rw [hy] at h
    simp only [List.head?] at h
    obtain rfl : b = c := by simpa using h
    rw [← ht, hy]
    rfl

lemma reverse_head?_pyStripC_not {l : List Char} {c : Char}
    (h : (pyStripC l).reverse.head? = some c) : isPySpace c = false := by
  have hrev : (pyStripC l).reverse = (pyStripL l).reverse.dropWhile isPySpace := by
    simp [pyStripC, pyStripR]
  rw [hrev] at h
  have hd := List.head?_dropWhile_not isPySpace (pyStripL l).reverse
  rw [h] at hd
  exact hd

lemma pyStripC_idem (l : List Char) : pyStripC (pyStripC l) = pyStripC l := by
  show pyStripR (pyStripL (pyStripC l)) = pyStripC l
  have h1 : pyStripL (pyStripC l) = pyStripC l :=
    pyStripL_eq_self (fun c hc => head?_pyStripC_not hc)
  rw [h1]
  exact pyStripR_eq_self (fun c hc => reverse_head?_pyStripC_not hc)

lemma pyStripC_sublist (l : List Char) : (pyStripC l).Sublist l := by
  have h1 : (pyStripL l).Sublist l := List.dropWhile_sublist isPySpace
  have h2 : (pyStripC l).Sublist (pyStripL l) := by
    obtain ⟨t, ht⟩ := pyStripR_isPrefixOf (pyStripL l)
    have hb := List.sublist_append_left (pyStripR (pyStripL l)) t
    rw [ht] at hb
    exact hb
  exact h2.trans h1

lemma pyStripR_sublist (l : List Char) : (pyStripR l).Sublist l := by
  obtain ⟨t, ht⟩ := pyStripR_isPrefixOf l
  have hb := List.sublist_append_left (pyStripR l) t
  rw [ht] at hb
  exact hb

/-!  Unfolding lemmas for the splitter (the `let`s zeta-reduce by `rfl`).  -/

lemma split_inline_unfold (text : String) :
    _split_inline_hyphen_semicolon text =
      if pyStripC text.data = [] then []
      else if hasWsHyphenWs (pyStripC text.data) then
        ((reSplitHyphen (pyStripC text.data)).map stripSpaceSemi).filterMap
          (fun p => if p = [] then none else some (String.mk p))
      else if (pyStripC text.data).contains ';' then
        ((splitOnSemi (pyStripC text.data)).map pyStripC).filterMap
          (fun p => if p = [] then none else some (String.mk p))
      else [String.mk (pyStripC text.data)] := rfl

lemma answers_from_cell_unfold (c : String) :
    _answers_from_cell (some c) =
      if _split_line_bullets_multiline
          (String.mk (pyStripC (normalizeNewlines c.data))) ≠ [] then
        _split_line_bullets_multiline
          (String.mk (pyStripC (normalizeNewlines c.data)))
      else if _split_inline_hyphen_semicolon
          (String.mk (pyStripC (normalizeNewlines c.data))) ≠ [] then
        _split_inline_hyphen_semicolon
          (String.mk (pyStripC (normalizeNewlines c.data)))
      else if String.mk (pyStripC (normalizeNewlines c.data)) ≠ "" then
        [String.mk (pyStripC (normalizeNewlines c.data))]
      else [] := rfl

lemma split_bullets_of_no_bullet (txt : String)
    (h : hasBulletStart txt.data = false) :
    _split_line_bullets_multiline txt = [] := by
  unfold _split_line_bullets_multiline
  by_cases h0 : pyStripC txt.data = []
  · rw [if_pos h0]
  · rw [if_neg h0, if_pos (by simp [h])]

lemma split_inline_no_sep (txt : String) (hs : pyStripC txt.data ≠ [])
    (h2 : hasWsHyphenWs (pyStripC txt.data) = false)
    (h3 : (pyStripC txt.data).contains ';' = false) :
    _split_inline_hyphen_semicolon txt = [String.mk (pyStripC txt.data)] := by
  rw [split_inline_unfold, if_neg hs, if_neg (by simp only [h2]; exact Bool.false_ne_true),
    if_neg (by simp only [h3]; exact Bool.false_ne_true)]

lemma data_mk (l : List Char) : (String.mk l).data = l := rfl

lemma mk_ne_empty_of_ne_nil {l : List Char} (h : l ≠ []) :
    String.mk l ≠ "" := by
  intro hq
  exact h (congrArg String.data hq)

/-- Claim C9: on a cell with no line-leading bullet, no inline hyphen
separator, and no semicolon, `_answers_from_cell` returns exactly the
trimmed cell as the single answer (or nothing when the cell trims to
nothing); slashes never split, e.g. `"H2O / dihidrogén-oxid"` stays one
answer. -/
theorem c9_no_separator_single_answer :
    (∀ cell : String,
      hasBulletStart (pyStripC (normalizeNewlines cell.data)) = false →
      hasWsHyphenWs (pyStripC (normalizeNewlines cell.data)) = false →
      (pyStripC (normalizeNewlines cell.data)).contains ';' = false →
      _answers_from_cell (some cell) =
        if pyStripC (normalizeNewlines cell.data) = [] then []
        else [String.mk (pyStripC (normalizeNewlines cell.data))]) ∧
    _answers_from_cell (some "H2O / dihidrogén-oxid")
      = ["H2O / dihidrogén-oxid"] := by
  constructor
  · intro cell h1 h2 h3
    have hidem : pyStripC (pyStripC (normalizeNewlines cell.data))
        = pyStripC (normalizeNewlines cell.data) := pyStripC_idem _
    have hbul : _split_line_bullets_multiline
        (String.mk (pyStripC (normalizeNewlines cell.data))) = [] :=
      split_bullets_of_no_bullet _ h1
    rw [answers_from_cell_unfold, hbul, if_neg (by simp)]
    by_cases h0 : pyStripC (normalizeNewlines cell.data) = []
    · rw [if_pos h0]
      have hinl : _split_inline_hyphen_semicolon
          (String.mk (pyStripC (normalizeNewlines cell.data))) = [] := by
        rw [split_inline_unfold, if_pos (by rw [data_mk, hidem, h0])]
      rw [hinl, if_neg (by simp), if_neg (by rw [h0]; simp)]
    · rw [if_neg h0]
      have hinl : _split_inline_hyphen_semicolon
          (String.mk (pyStripC (normalizeNewlines cell.data)))
          = [String.mk (pyStripC (normalizeNewlines cell.data))] := by
        have h := split_inline_no_sep
          (String.mk (pyStripC (normalizeNewlines cell.data)))
          (by rw [data_mk, hidem]; exact h0)
          (by rw [data_mk, hidem]; exact h2)
          (by rw [data_mk, hidem]; exact h3)
        rw [data_mk, hidem] at h
        exact h
      rw [hinl, if_pos (by simp)]
  · decide

/-- Concrete instance of the C9 theorem at `"alap fogalom"` (a cell with no
separators at all). -/
theorem c9_no_separator_single_answer_witness :
    _answers_from_cell (some "alap fogalom") = ["alap fogalom"] := by
  have h := c9_no_separator_single_answer.1 "alap fogalom"
    (by decide) (by decide) (by decide)
  rw [if_neg (by decide)] at h
  exact h

/-- The spec-side trigger condition of claim C5, modelled from the spec's
words: "the cell contains a hyphen surrounded by whitespace on at least one
side" — some adjacent pair is whitespace-then-hyphen or
hyphen-then-whitespace. -/
def specHyphenOneSide : List Char → Bool
  | a :: b :: rest =>
    (isPySpace a && b = '-') || (a = '-' && isPySpace b) ||
      specHyphenOneSide (b :: rest)
  | _ => false

/-- Claim C5, counterexample: in `"a -b; c"` the hyphen has whitespace on
its left side only.  The claim says such a cell is split on the hyphen
pattern with semicolons not considered; the code's pattern `\s-\s+` needs
whitespace on both sides, does not fire, and the cell is split on the
semicolon instead, leaving `" -b"` inside the first piece. -/
theorem c5_counterexample :
    specHyphenOneSide ("a -b; c" : String).data = true ∧
    hasBulletStart (pyStripC (normalizeNewlines ("a -b; c" : String).data))
      = false ∧
    _answers_from_cell (some "a -b; c") = ["a -b", "c"] :=
  ⟨by decide, by decide, by decide⟩

/-- Claim C5 (amended): the inline separator is a hyphen with whitespace on
both sides (one whitespace character before, at least one after, the greedy
`\s+`).  On a cell with no line-leading bullet in which this pattern occurs,
the splitter cuts at every occurrence and strips spaces and semicolons from
the pieces, dropping empty ones — lower-priority separators (semicolons and
the rest) are not considered even when present; when every piece strips to
nothing, the whole trimmed cell is the single answer.  E.g.
`"x - y; z"` gives `["x", "y; z"]` — the semicolon is untouched. -/
theorem c5_inline_hyphen_amended :
    (∀ cell : String,
      hasBulletStart (pyStripC (normalizeNewlines cell.data)) = false →
      hasWsHyphenWs (pyStripC (normalizeNewlines cell.data)) = true →
      _answers_from_cell (some cell) =
        if ((reSplitHyphen (pyStripC (normalizeNewlines cell.data))).map
              stripSpaceSemi).filterMap
            (fun p => if p = [] then none else some (String.mk p)) = []
        then [String.mk (pyStripC (normalizeNewlines cell.data))]
        else ((reSplitHyphen (pyStripC (normalizeNewlines cell.data))).map
              stripSpaceSemi).filterMap
            (fun p => if p = [] then none else some (String.mk p))) ∧
    _answers_from_cell (some "x - y; z") = ["x", "y; z"] := by
  constructor
  · intro cell h1 h2
    have hidem : pyStripC (pyStripC (normalizeNewlines cell.data))
        = pyStripC (normalizeNewlines cell.data) := pyStripC_idem _
    have h0 : pyStripC (normalizeNewlines cell.data) ≠ [] := by
      intro hz
      rw [hz] at h2
      exact Bool.false_ne_true h2
    have hbul : _split_line_bullets_multiline
        (String.mk (pyStripC (normalizeNewlines cell.data))) = [] :=
      split_bullets_of_no_bullet _ h1
    have hinl : _split_inline_hyphen_semicolon
        (String.mk (pyStripC (normalizeNewlines cell.data)))
        = ((reSplitHyphen (pyStripC (normalizeNewlines cell.data))).map
              stripSpaceSemi).filterMap
            (fun p => if p = [] then none else some (String.mk p)) := by
      rw [split_inline_unfold, data_mk, hidem, if_neg h0, if_pos h2]
    rw [answers_from_cell_unfold, hbul, if_neg (by simp), hinl]
    by_cases hp : ((reSplitHyphen (pyStripC (normalizeNewlines cell.data))).map
          stripSpaceSemi).filterMap
        (fun p => if p = [] then none else some (String.mk p)) = []
    · rw [if_pos hp, hp, if_neg (by simp),
        if_pos (by simp [mk_ne_empty_of_ne_nil h0])]
    · rw [if_neg hp, if_pos (by simpa using hp)]
  · decide

/-- Concrete instance of the amended C5 theorem at `"a - b; c"`. -/
theorem c5_inline_hyphen_amended_witness :
    _answers_from_cell (some "a - b; c") = ["a", "b; c"] := by
  have h := c5_inline_hyphen_amended.1 "a - b; c" (by decide) (by decide)
  rw [if_neg (by decide)] at h
  exact h

/-!  Character-tracking lemmas for the bullet splitter (claim C4).  -/

lemma noCR_normalize (l : List Char) : '\r' ∉ normalizeNewlines l := by
  induction l using normalizeNewlines.induct with
  | case1 => simp [normalizeNewlines]
  | case2 rest ih =>
    rw [show normalizeNewlines ('\r' :: '\n' :: rest)
        = '\n' :: normalizeNewlines rest from rfl]
    intro h
    rcases List.mem_cons.mp h with h1 | h2
    · exact absurd h1 (by decide)
    · exact ih h2
  | case3 rest hside ih =>
    intro h
    rw [show normalizeNewlines ('\r' :: rest) = '\n' :: normalizeNewlines rest
      from by simp [normalizeNewlines, hside]] at h
    rcases List.mem_cons.mp h with h1 | h2
    · exact absurd h1 (by decide)
    · exact ih h2
  | case4 c rest hside1 hside2 ih =>
    intro h
    rw [show normalizeNewlines (c :: rest) = c :: normalizeNewlines rest
      from by simp [normalizeNewlines, hside1, hside2]] at h
    rcases List.mem_cons.mp h with h1 | h2
    · exact hside2 h1.symm
    · exact ih h2

lemma mem_pySplitlines_subset :
    ∀ (l ln : List Char), ln ∈ pySplitlines l → ∀ c ∈ ln, c ∈ l := by
  intro l
  induction l using pySplitlines.induct with
  | case1 => intro ln h; simp [pySplitlines] at h
  | case2 rest ih =>
    intro ln h c hc
    rw [show pySplitlines ('\r' :: '\n' :: rest) = [] :: pySplitlines rest
      from rfl] at h
    rcases List.mem_cons.mp h with rfl | h2
    · simp at hc
    · have := ih ln h2 c hc
      simp [this]
  | case3 rest hside ih =>
    intro ln h c hc
    rw [show pySplitlines ('\r' :: rest) = [] :: pySplitlines rest
      from by simp [pySplitlines, hside]] at h
    rcases List.mem_cons.mp h with rfl | h2
    · simp at hc
    · have := ih ln h2 c hc
      simp [this]
  | case4 rest ih =>
    intro ln h c hc
    rw [show pySplitlines ('\n' :: rest) = [] :: pySplitlines rest
      from rfl] at h
    rcases List.mem_cons.mp h with rfl | h2
    · simp at hc
    · have := ih ln h2 c hc
      simp [this]
  | case5 a rest hs1 hs2 hs3 hnil ih =>
    intro ln h c hc
    rw [show pySplitlines (a :: rest) = [[a]]
      from by simp [pySplitlines, hs1, hs2, hs3, hnil]] at h
    rcases List.mem_singleton.mp h with rfl
    rcases List.mem_singleton.mp hc with rfl
    simp
  | case6 a rest hs1 hs2 hs3 p ps hcons ih =>
    intro ln h c hc
    rw [show pySplitlines (a :: rest) = (a :: p) :: ps
      from by simp [pySplitlines, hs1, hs2, hs3, hcons]] at h
    rcases List.mem_cons.mp h with rfl | h2
    · rcases List.mem_cons.mp hc with rfl | hc2
      · simp
      · have := ih p (by rw [hcons]; simp) c hc2
        simp [this]
    · have := ih ln (by rw [hcons]; simp [h2]) c hc
      simp [this]

lemma joinLines_mem (c : Char) :
    ∀ (ls : List (List Char)), c ∈ joinLines ls →
      (∃ l ∈ ls, c ∈ l) ∨ c = '\n' := by
  intro ls
  induction ls using joinLines.induct with
  | case1 => intro h; simp [joinLines] at h
  | case2 l =>
    intro h
    rw [show joinLines [l] = l from rfl] at h
    exact Or.inl ⟨l, by simp, h⟩
  | case3 l r rest ih =>
    intro h
    rw [show joinLines (l :: r :: rest) = l ++ '\n' :: joinLines (r :: rest)
      from rfl] at h
    rcases List.mem_append.mp h with h1 | h2
    · exact Or.inl ⟨l, by simp, h1⟩
    · rcases List.mem_cons.mp h2 with rfl | h3
      · exact Or.inr rfl
      · rcases ih h3 with ⟨l2, hl2, hcl2⟩ | rfl
        · exact Or.inl ⟨l2, List.mem_cons_of_mem l hl2, hcl2⟩
        · exact Or.inr rfl

lemma bulletLineMatch_subset {ln g : List Char}
    (h : bulletLineMatch ln = some g) : ∀ c ∈ g, c ∈ ln := by
  intro c hc
  unfold bulletLineMatch at h
  cases hd : ln.dropWhile isPySpace with
  | nil => rw [hd] at h; simp at h
  | cons x rest =>
    rw [hd] at h
    have h' : (if x = '-' && !(rest.takeWhile isPySpace).isEmpty then
        some (rest.dropWhile isPySpace) else none) = some g := h
    by_cases hcond : (x = '-' && !(rest.takeWhile isPySpace).isEmpty) = true
    · rw [if_pos hcond] at h'
      obtain rfl : rest.dropWhile isPySpace = g := by simpa using h'
      have h1 : c ∈ rest := (List.dropWhile_sublist isPySpace).subset hc
      have h2 : c ∈ ln.dropWhile isPySpace := by
        rw [hd]; exact List.mem_cons_of_mem x h1
      exact (List.dropWhile_sublist isPySpace).subset h2
    · rw [if_neg hcond] at h'; simp at h'

lemma bulletLoop_nil (cur : List (List Char)) (inb : Bool) :
    bulletLoop [] cur inb
      = if cur = [] then [] else [pyStripR (joinLines cur)] := rfl

lemma bulletLoop_cons (ln : List Char) (rest : List (List Char))
    (cur : List (List Char)) (inb : Bool) :
    bulletLoop (ln :: rest) cur inb
      = match bulletLineMatch ln with
        | some g =>
          if cur = [] then bulletLoop rest [g] true
          else pyStripR (joinLines cur) :: bulletLoop rest [g] true
        | none =>
          if inb then bulletLoop rest (cur ++ [pyStripR ln]) inb
          else bulletLoop rest cur inb := rfl

lemma bulletLoop_chars (P : Char → Prop) (hnl : P '\n') :
    ∀ (lines : List (List Char)) (cur : List (List Char)) (inb : Bool),
      (∀ ln ∈ lines, ∀ c ∈ ln, P c) →
      (∀ l ∈ cur, ∀ c ∈ l, P c) →
      ∀ a ∈ bulletLoop lines cur inb, ∀ c ∈ a, P c := by
  intro lines
  induction lines with
  | nil =>
    intro cur inb _ hcur a ha c hc
    rw [bulletLoop_nil] at ha
    by_cases h0 : cur = []
    · rw [if_pos h0] at ha; simp at ha
    · rw [if_neg h0] at ha
      rcases List.mem_singleton.mp ha with rfl
      have hc2 : c ∈ joinLines cur := (pyStripR_sublist _).subset hc
      rcases joinLines_mem c cur hc2 with ⟨l, hl, hcl⟩ | rfl
      · exact hcur l hl c hcl
      · exact hnl
  | cons ln rest ih =>
    intro cur inb hlines hcur a ha c hc
    rw [bulletLoop_cons] at ha
    have hrest : ∀ l ∈ rest, ∀ c ∈ l, P c :=
      fun l hl => hlines l (List.mem_cons_of_mem ln hl)
    cases hm : bulletLineMatch ln with
    | some g =>
      rw [hm] at ha
      replace ha : a ∈ (if cur = [] then bulletLoop rest [g] true
        else pyStripR (joinLines cur) :: bulletLoop rest [g] true) := ha
      have hg : ∀ l ∈ [g], ∀ x ∈ l, P x := by
        intro l hl x hx
        rcases List.mem_singleton.mp hl with rfl
        exact hlines ln (by simp) x (bulletLineMatch_subset hm x hx)
      by_cases h0 : cur = []
      · rw [if_pos h0] at ha
        exact ih [g] true hrest hg a ha c hc
      · rw [if_neg h0] at ha
        rcases List.mem_cons.mp ha with rfl | ha2
        · have hc2 : c ∈ joinLines cur := (pyStripR_sublist _).subset hc
          rcases joinLines_mem c cur hc2 with ⟨l, hl, hcl⟩ | rfl
          · exact hcur l hl c hcl
          · exact hnl
        · exact ih [g] true hrest hg a ha2 c hc
    | none =>
      rw [hm] at ha
      replace ha : a ∈ (if inb = true then bulletLoop rest (cur ++ [pyStripR ln]) inb
        else bulletLoop rest cur inb) := ha
      cases inb with
      | true =>
        rw [if_pos rfl] at ha
        have hcur' : ∀ l ∈ cur ++ [pyStripR ln], ∀ x ∈ l, P x := by
          intro l hl x hx
          rcases List.mem_append.mp hl with hl1 | hl2
          · exact hcur l hl1 x hx
          · rcases List.mem_singleton.mp hl2 with rfl
            exact hlines ln (by simp) x ((pyStripR_sublist _).subset hx)
        exact ih _ true hrest hcur' a ha c hc
      | false =>
        rw [if_neg (by simp)] at ha
        exact ih cur false hrest hcur a ha c hc

lemma mem_split_bullets {txt a : String}
    (ha : a ∈ _split_line_bullets_multiline txt) :
    (∀ c ∈ a.data, c ∈ txt.data ∨ c = '\n') ∧ pyStripC a.data ≠ [] := by
  unfold _split_line_bullets_multiline at ha
  by_cases h0 : pyStripC txt.data = []
  · rw [if_pos h0] at ha; simp at ha
  · rw [if_neg h0] at ha
    by_cases h1 : hasBulletStart txt.data = true
    · rw [if_neg (by simp [h1])] at ha
      rw [List.mem_map] at ha
      obtain ⟨ch, hch, rfl⟩ := ha
      rw [List.mem_filter] at hch
      obtain ⟨hmem, hfil⟩ := hch
      refine ⟨?_, by simpa using hfil⟩
      intro c hc
      exact bulletLoop_chars (fun c => c ∈ txt.data ∨ c = '\n') (Or.inr rfl)
        (pySplitlines txt.data) [] false
        (fun ln hln x hx =>
          Or.inl (mem_pySplitlines_subset txt.data ln hln x hx))
        (by simp) ch hmem c hc
    · rw [if_pos (by simpa using h1)] at ha
      simp at ha

lemma normalize_eq_self_of_noCR : ∀ {l : List Char}, '\r' ∉ l →
    normalizeNewlines l = l := by
  intro l
  induction l using normalizeNewlines.induct with
  | case1 => intro _; rfl
  | case2 rest ih => intro h; exact absurd (by simp) h
  | case3 rest hside ih => intro h; exact absurd (by simp) h
  | case4 c rest hs1 hs2 ih =>
    intro h
    rw [show normalizeNewlines (c :: rest) = c :: normalizeNewlines rest
      from by simp [normalizeNewlines, hs1, hs2]]
    rw [ih (fun hx => h (List.mem_cons_of_mem c hx))]

/-- Claim C4, counterexample: the cell `"- a; b"` has a leading-bullet line
and splits into the single answer `"a; b"`; re-splitting that answer alone
does not return it unchanged — with no bullet present the splitter now
fires on the semicolon and returns two answers. -/
theorem c4_counterexample :
    _answers_from_cell (some "- a; b") = ["a; b"] ∧
    _answers_from_cell (some "a; b") = ["a", "b"] :=
  ⟨by decide, by decide⟩

/-- Claim C4 (amended): for a cell with at least one leading-bullet line,
re-splitting an answer taken from the splitter's result returns exactly
that answer unchanged provided the answer itself contains no line-leading
bullet, no both-sides-whitespace hyphen, no semicolon, and no leading
whitespace (answers are already right-stripped; one whose text contains a
separator pattern, or which starts with whitespace, is split or trimmed
differently on the second pass, as the counterexample shows). -/
theorem c4_bullet_idempotent_amended :
    ∀ (cell a : String),
      _split_line_bullets_multiline
        (String.mk (pyStripC (normalizeNewlines cell.data))) ≠ [] →
      a ∈ _answers_from_cell (some cell) →
      hasBulletStart a.data = false →
      hasWsHyphenWs a.data = false →
      a.data.contains ';' = false →
      pyStripC a.data = a.data →
      _answers_from_cell (some a) = [a] := by
  intro cell a hbne ha h1 h2 h3 hstrip
  rw [answers_from_cell_unfold, if_pos hbne] at ha
  obtain ⟨hchars, hne⟩ := mem_split_bullets ha
  have hnoCR : '\r' ∉ a.data := by
    intro hcr
    rcases hchars '\r' hcr with hmem | habs
    · exact noCR_normalize cell.data ((pyStripC_sublist _).subset hmem)
    · exact absurd habs (by decide)
  have hnorm : normalizeNewlines a.data = a.data := normalize_eq_self_of_noCR hnoCR
  have hmk : String.mk a.data = a := rfl
  rw [answers_from_cell_unfold, hnorm, hstrip, hmk]
  have hbul : _split_line_bullets_multiline a = [] :=
    split_bullets_of_no_bullet a h1
  have hinl : _split_inline_hyphen_semicolon a = [String.mk (pyStripC a.data)] :=
    split_inline_no_sep a
      (by rw [show pyStripC a.data = pyStripC a.data from rfl]; exact hne)
      (by rw [hstrip]; exact h2)
      (by rw [hstrip]; exact h3)
  rw [hstrip, hmk] at hinl
  rw [hbul, if_neg (by simp), hinl, if_pos (by simp)]

/-- Concrete instance of the amended C4 theorem: the two bullet answers of
`"- alma\n- korte"` both re-split to themselves. -/
theorem c4_bullet_idempotent_amended_witness :
    _answers_from_cell (some "alma") = ["alma"] ∧
    _answers_from_cell (some "korte") = ["korte"] :=
  ⟨c4_bullet_idempotent_amended "- alma\n- korte" "alma"
      (by decide) (by decide) (by decide) (by decide) (by decide) (by decide),
    c4_bullet_idempotent_amended "- alma\n- korte" "korte"
      (by decide) (by decide) (by decide) (by decide) (by decide) (by decide)⟩

/-!  Lemmas about the sampling model.  -/

lemma pySample_zero (g : Nat → Nat) (i : Nat) (pool : List String) :
    pySample g i pool 0 = [] := rfl

lemma pySample_succ (g : Nat → Nat) (i : Nat) (pool : List String) (k : Nat) :
    pySample g i pool (k + 1) =
      if pool = [] then []
      else pool.getD (g i % pool.length) ""
        :: pySample g (i + 1) (pool.eraseIdx (g i % pool.length)) k := rfl

lemma getD_mem_of_lt (l : List String) (i : Nat) (h : i < l.length) :
    l.getD i "" ∈ l := by
  rw [List.getD_eq_getElem _ _ h]
  exact List.getElem_mem h

lemma getD_cons_eraseIdx_perm :
    ∀ (l : List String) (i : Nat), i < l.length →
      l.Perm (l.getD i "" :: l.eraseIdx i) := by
  intro l
  induction l with
  | nil => intro i h; simp at h
  | cons a t ih =>
    intro i h
    cases i with
    | zero => simp
    | succ j =>
      have hj : j < t.length := by simpa using h
      have h1 : (a :: t).Perm (a :: (t.getD j "" :: t.eraseIdx j)) :=
        (ih j hj).cons a
      have h2 := List.Perm.swap (t.getD j "") a (t.eraseIdx j)
      rw [List.getD_cons_succ, List.eraseIdx_cons_succ]
      exact h1.trans h2

lemma pySample_length (g : Nat → Nat) :
    ∀ (k : Nat) (i : Nat) (pool : List String), k ≤ pool.length →
      (pySample g i pool k).length = k := by
  intro k
  induction k with
  | zero => intro i pool _; rfl
  | succ m ih =>
    intro i pool h
    have hne : pool ≠ [] := by
      intro hz; rw [hz] at h; simp at h
    have hpos : 0 < pool.length := List.length_pos.mpr hne
    have hidx : g i % pool.length < pool.length := Nat.mod_lt _ hpos
    have hlen := List.length_eraseIdx_add_one hidx
    rw [pySample_succ, if_neg hne, List.length_cons,
      ih (i + 1) (pool.eraseIdx (g i % pool.length)) (by omega)]

lemma pySample_subset (g : Nat → Nat) :
    ∀ (k : Nat) (i : Nat) (pool : List String) (x : String),
      x ∈ pySample g i pool k → x ∈ pool := by
  intro k
  induction k with
  | zero => intro i pool x h; simp [pySample_zero] at h
  | succ m ih =>
    intro i pool x h
    by_cases hne : pool = []
    · rw [pySample_succ, if_pos hne] at h; simp at h
    · rw [pySample_succ, if_neg hne] at h
      have hpos : 0 < pool.length := List.length_pos.mpr hne
      rcases List.mem_cons.mp h with rfl | h2
      · exact getD_mem_of_lt pool _ (Nat.mod_lt _ hpos)
      · exact (List.eraseIdx_sublist pool _).subset (ih _ _ x h2)

lemma pySample_nodup (g : Nat → Nat) :
    ∀ (k : Nat) (i : Nat) (pool : List String), pool.Nodup →
      (pySample g i pool k).Nodup := by
  intro k
  induction k with
  | zero => intro i pool _; simp [pySample_zero]
  | succ m ih =>
    intro i pool hnd
    by_cases hne : pool = []
    · rw [pySample_succ, if_pos hne]; simp
    · rw [pySample_succ, if_neg hne]
      have hpos : 0 < pool.length := List.length_pos.mpr hne
      have hidx : g i % pool.length < pool.length := Nat.mod_lt _ hpos
      have hperm := getD_cons_eraseIdx_perm pool _ hidx
      have hcn : (pool.getD (g i % pool.length) ""
          :: pool.eraseIdx (g i % pool.length)).Nodup := hperm.nodup hnd
      rw [List.nodup_cons] at hcn
      rw [List.nodup_cons]
      exact ⟨fun hmem => hcn.1 (pySample_subset g m (i + 1) _ _ hmem),
        ih (i + 1) _ hcn.2⟩

lemma pySample_perm_full (g : Nat → Nat) :
    ∀ (n : Nat) (pool : List String) (i : Nat), pool.length = n →
      (pySample g i pool n).Perm pool := by
  intro n
  induction n with
  | zero =>
    intro pool i h
    rw [List.length_eq_zero] at h
    rw [h, pySample_zero]
  | succ m ih =>
    intro pool i h
    have hne : pool ≠ [] := by
      intro hz; rw [hz] at h; simp at h
    have hidx : g i % pool.length < pool.length := by
      rw [h]; exact Nat.mod_lt _ (Nat.succ_pos m)
    have hlen := List.length_eraseIdx_add_one hidx
    have hperm := getD_cons_eraseIdx_perm pool _ hidx
    rw [pySample_succ, if_neg hne]
    have htail := ih (pool.eraseIdx (g i % pool.length)) (i + 1) (by omega)
    exact (htail.cons _).trans hperm.symm

lemma pyShuffle_perm (g : Nat → Nat) (i0 : Nat) (l : List String) :
    (pyShuffle g i0 l).Perm l :=
  pySample_perm_full g l.length l i0 rfl

/-- Claim C7, counterexample: the app_kemia sampler, asked for 2 questions
from a 1-question bank, neither fails nor returns 2 distinct keys — it
returns the single key. -/
theorem c7_counterexample :
    valassz_kerdeseket_app (fun _ => 0) [("Q", ["A"])] 2 = ["Q"] ∧
    (["Q"] : List String).length ≠ 2 :=
  ⟨rfl, by decide⟩

/-- Claim C7 (amended): the molsejt sampler fails with a `ValidationError`
whenever `n` exceeds the bank's size and otherwise returns exactly `n`
distinct keys of the bank, drawn without replacement.  The app_kemia
sampler never fails: when the request is at least the bank's size it
returns all keys in shuffled order, and for a smaller request it returns
that many distinct keys — so neither sampler ever returns a duplicate or
more keys than the bank holds. -/
theorem c7_sampler_amended :
    (∀ (g : Nat → Nat) (i0 : Nat) (qa : Bank) (n : Nat),
      n > qa.length → valassz_kerdeseket g i0 qa n = .error .validationError) ∧
    (∀ (g : Nat → Nat) (i0 : Nat) (qa : Bank) (n : Nat),
      (qa.map Prod.fst).Nodup → n ≤ qa.length →
      ∃ l, valassz_kerdeseket g i0 qa n = .ok l ∧ l.length = n ∧ l.Nodup ∧
        ∀ x ∈ l, x ∈ qa.map Prod.fst) ∧
    (∀ (g : Nat → Nat) (qa : Bank) (db : Nat),
      qa.length ≤ db →
      (valassz_kerdeseket_app g qa db).Perm (qa.map Prod.fst)) ∧
    (∀ (g : Nat → Nat) (qa : Bank) (db : Nat),
      (qa.map Prod.fst).Nodup → db < qa.length →
      (valassz_kerdeseket_app g qa db).length = db ∧
      (valassz_kerdeseket_app g qa db).Nodup ∧
      ∀ x ∈ valassz_kerdeseket_app g qa db, x ∈ qa.map Prod.fst) := by
  have hkeylen : ∀ qa : Bank, (qa.map Prod.fst).length = qa.length :=
    fun qa => List.length_map qa Prod.fst
  refine ⟨?_, ?_, ?_, ?_⟩
  · intro g i0 qa n h
    rw [valassz_kerdeseket, if_pos h]
  · intro g i0 qa n hnd h
    refine ⟨pySample g i0 (qa.map Prod.fst) n, ?_, ?_, ?_, ?_⟩
    · rw [valassz_kerdeseket, if_neg (by omega)]
    · exact pySample_length g n i0 _ (by rw [hkeylen]; omega)
    · exact pySample_nodup g n i0 _ hnd
    · exact fun x hx => pySample_subset g n i0 _ x hx
  · intro g qa db h
    rw [valassz_kerdeseket_app]
    rw [if_pos (by rw [hkeylen]; omega)]
    exact pyShuffle_perm g 0 _
  · intro g qa db hnd h
    rw [valassz_kerdeseket_app]
    rw [if_neg (by rw [hkeylen]; omega)]
    exact ⟨pySample_length g db 0 _ (by rw [hkeylen]; omega),
      pySample_nodup g db 0 _ hnd,
      fun x hx => pySample_subset g db 0 _ x hx⟩

/-- Concrete instance of the amended C7 theorem: a 2-question request from
a 1-question bank is a `ValidationError` in the molsejt sampler. -/
theorem c7_sampler_amended_witness :
    valassz_kerdeseket (fun _ => 0) 0 [("Q", ["A"])] 2
      = .error .validationError :=
  c7_sampler_amended.1 (fun _ => 0) 0 [("Q", ["A"])] 2 (by decide)

lemma valassz_forras_unfold (g : Nat → Nat) (mod : String) (n : Nat)
    (qa1 qa2 : Bank) :
    valassz_forras_es_kerdesek g mod n qa1 qa2 =
      if ¬ (pyLower (pyStrip mod) = "1" ∨ pyLower (pyStrip mod) = "2" ∨
            pyLower (pyStrip mod) = "3" ∨ pyLower (pyStrip mod) = "szigorlat")
      then .error .invalidMode
      else if n = 0 then .error .nonPositive
      else if pyLower (pyStrip mod) = "1" then
        if n > qa1.length then .error .validationError
        else
          match valassz_kerdeseket g 0 qa1 n with
          | .error e => .error e
          | .ok kerd => .ok (kerd, qa1)
      else if pyLower (pyStrip mod) = "2" then
        if n > qa2.length then .error .validationError
        else
          match valassz_kerdeseket g 0 qa2 n with
          | .error e => .error e
          | .ok kerd => .ok (kerd, qa2)
      else
        if (n + 1) / 2 > qa1.length ∨ n - (n + 1) / 2 > qa2.length
        then .error .validationError
        else
          match valassz_kerdeseket g 0 qa1 ((n + 1) / 2),
              valassz_kerdeseket g ((n + 1) / 2) qa2 (n - (n + 1) / 2) with
          | .ok kerd1, .ok kerd2 =>
            .ok (pyShuffle g n (kerd1 ++ kerd2), _osszefesul_qa [qa1, qa2])
          | .error e, _ => .error e
          | _, .error e => .error e := rfl

/-- Claim C3: in mixed mode the request is split `n1 = ceil(n/2)` from
source 1 (`n = 11` gives `n1 = 6`, `n2 = 5`), each part is drawn by the
single-source sampler, the parts are concatenated and uniformly shuffled
(the result is a permutation of the concatenation, of length `n`), and the
call fails with a `ValidationError` when `n1` exceeds source 1's size or
`n2` exceeds source 2's size. -/
theorem c3_mixed_mode_split :
    ((11 + 1) / 2 = 6 ∧ 11 - (11 + 1) / 2 = 5) ∧
    (∀ (g : Nat → Nat) (mod : String) (n : Nat) (qa1 qa2 : Bank),
      (pyLower (pyStrip mod) = "3" ∨ pyLower (pyStrip mod) = "szigorlat") →
      ((n + 1) / 2 > qa1.length ∨ n - (n + 1) / 2 > qa2.length) →
      valassz_forras_es_kerdesek g mod n qa1 qa2
        = .error .validationError) ∧
    (∀ (g : Nat → Nat) (mod : String) (n : Nat) (qa1 qa2 : Bank),
      (pyLower (pyStrip mod) = "3" ∨ pyLower (pyStrip mod) = "szigorlat") →
      0 < n → (n + 1) / 2 ≤ qa1.length → n - (n + 1) / 2 ≤ qa2.length →
      ∃ k1 k2,
        valassz_kerdeseket g 0 qa1 ((n + 1) / 2) = .ok k1 ∧
        valassz_kerdeseket g ((n + 1) / 2) qa2 (n - (n + 1) / 2) = .ok k2 ∧
        valassz_forras_es_kerdesek g mod n qa1 qa2 =
          .ok (pyShuffle g n (k1 ++ k2), _osszefesul_qa [qa1, qa2]) ∧
        k1.length = (n + 1) / 2 ∧ k2.length = n - (n + 1) / 2 ∧
        (pyShuffle g n (k1 ++ k2)).Perm (k1 ++ k2) ∧
        (pyShuffle g n (k1 ++ k2)).length = n) := by
  refine ⟨⟨by decide, by decide⟩, ?_, ?_⟩
  · intro g mod n qa1 qa2 hmod hover
    have hn : n ≠ 0 := by
      rcases hover with h | h <;> omega
    rw [valassz_forras_unfold]
    rcases hmod with hm | hm <;>
      rw [hm, if_neg (by simp), if_neg hn, if_neg (by simp),
        if_neg (by simp), if_pos hover]
  · intro g mod n qa1 qa2 hmod hn h1 h2
    have hk1 : valassz_kerdeseket g 0 qa1 ((n + 1) / 2)
        = .ok (pySample g 0 (qa1.map Prod.fst) ((n + 1) / 2)) := by
      rw [valassz_kerdeseket, if_neg (by omega)]
    have hk2 : valassz_kerdeseket g ((n + 1) / 2) qa2 (n - (n + 1) / 2)
        = .ok (pySample g ((n + 1) / 2) (qa2.map Prod.fst) (n - (n + 1) / 2)) := by
      rw [valassz_kerdeseket, if_neg (by omega)]
    refine ⟨_, _, hk1, hk2, ?_, ?_, ?_, ?_, ?_⟩
    · rw [valassz_forras_unfold]
      rcases hmod with hm | hm <;>
        rw [hm, if_neg (by simp), if_neg (by omega), if_neg (by simp),
          if_neg (by simp), if_neg (by omega), hk1, hk2]
    · exact pySample_length g _ 0 _ (by rw [List.length_map]; omega)
    · exact pySample_length g _ _ _ (by rw [List.length_map]; omega)
    · exact pyShuffle_perm g n _
    · have hperm := pyShuffle_perm g n
        (pySample g 0 (qa1.map Prod.fst) ((n + 1) / 2)
          ++ pySample g ((n + 1) / 2) (qa2.map Prod.fst) (n - (n + 1) / 2))
      rw [hperm.length_eq, List.length_append,
        pySample_length g _ 0 _ (by rw [List.length_map]; omega),
        pySample_length g _ _ _ (by rw [List.length_map]; omega)]
      omega

/-- Concrete instance of the C3 theorem: `n = 5` over banks of sizes 1 and
1 has `n1 = 3 > 1`, a `ValidationError`. -/
theorem c3_mixed_mode_split_witness :
    valassz_forras_es_kerdesek (fun _ => 0) "3" 5 [("a", ["x"])] [("b", ["y"])]
      = .error .validationError :=
  c3_mixed_mode_split.2.1 (fun _ => 0) "3" 5 [("a", ["x"])] [("b", ["y"])]
    (Or.inl (by decide)) (by decide)

/-!  Lemmas about the bank dictionary operations.  -/

lemma contains_iff (l : List String) (a : String) :
    l.contains a = true ↔ a ∈ l := by simp

lemma bankGet_nil (q : String) : bankGet [] q = none := rfl

lemma bankGet_cons (a : String × List String) (t : Bank) (q : String) :
    bankGet (a :: t) q = if a.1 = q then some a.2 else bankGet t q := by
  unfold bankGet
  rw [List.find?_cons]
  by_cases h : a.1 = q
  · simp [h]
  · simp [h]

lemma bankGet_eq_none_iff (d : Bank) (q : String) :
    bankGet d q = none ↔ q ∉ d.map Prod.fst := by
  induction d with
  | nil => simp [bankGet_nil]
  | cons a t ih =>
    rw [bankGet_cons]
    by_cases h : a.1 = q
    · simp [h]
    · rw [if_neg h, ih]
      simp [h, Ne.symm h]

lemma bankGet_isSome_iff (d : Bank) (q : String) :
    (bankGet d q).isSome = true ↔ q ∈ d.map Prod.fst := by
  constructor
  · intro h
    by_contra hmem
    rw [(bankGet_eq_none_iff d q).mpr hmem] at h
    simp at h
  · intro h
    cases hb : bankGet d q with
    | none => rw [bankGet_eq_none_iff] at hb; exact absurd h hb
    | some w => rfl

lemma find?_isSome_eq_bankGet_isSome (d : Bank) (q : String) :
    (d.find? (fun p => p.1 = q)).isSome = (bankGet d q).isSome := by
  unfold bankGet
  cases d.find? (fun p => p.1 = q) <;> rfl

lemma bankGet_updateVal (d : Bank) (k : String) (v : List String) (q : String) :
    bankGet (d.map (fun p => if p.1 = k then (k, v) else p)) q =
      if k = q then (bankGet d k).map (fun _ => v) else bankGet d q := by
  induction d with
  | nil =>
    by_cases hkq : k = q <;> simp [bankGet_nil, hkq]
  | cons a t ih =>
    rw [List.map_cons]
    by_cases hak : a.1 = k
    · rw [if_pos hak, bankGet_cons]
      by_cases hkq : k = q
      · subst hkq
        rw [if_pos rfl, if_pos rfl, bankGet_cons, if_pos hak]
        rfl
      · rw [if_neg (show ¬((k, v).1 = q) from hkq), ih, if_neg hkq, if_neg hkq,
          bankGet_cons, if_neg (show ¬(a.1 = q) from fun h => hkq (hak.symm.trans h))]
    · rw [if_neg hak, bankGet_cons]
      by_cases haq : a.1 = q
      · rw [if_pos haq]
        have hkq : ¬ k = q := fun h => hak (haq.trans h.symm)
        rw [if_neg hkq, bankGet_cons, if_pos haq]
      · rw [if_neg haq, ih]
        by_cases hkq : k = q
        · rw [if_pos hkq, if_pos hkq, bankGet_cons, if_neg hak]
        · rw [if_neg hkq, if_neg hkq, bankGet_cons, if_neg haq]

lemma bankGet_append_single (d : Bank) (k : String) (v : List String)
    (q : String) :
    bankGet (d ++ [(k, v)]) q =
      match bankGet d q with
      | some w => some w
      | none => if k = q then some v else none := by
  induction d with
  | nil =>
    rw [List.nil_append, bankGet_cons, bankGet_nil]
  | cons a t ih =>
    rw [List.cons_append, bankGet_cons, bankGet_cons]
    by_cases haq : a.1 = q
    · rw [if_pos haq, if_pos haq]
    · rw [if_neg haq, if_neg haq, ih]

lemma bankGet_bankSet (d : Bank) (k : String) (v : List String) (q : String) :
    bankGet (bankSet d k v) q = if k = q then some v else bankGet d q := by
  unfold bankSet
  by_cases hp : (d.find? (fun p => p.1 = k)).isSome = true
  · rw [if_pos hp, bankGet_updateVal]
    by_cases hkq : k = q
    · rw [if_pos hkq, if_pos hkq]
      rw [find?_isSome_eq_bankGet_isSome] at hp
      cases hb : bankGet d k with
      | none => rw [hb] at hp; simp at hp
      | some w => rfl
    · rw [if_neg hkq, if_neg hkq]
  · rw [if_neg hp, bankGet_append_single]
    by_cases hkq : k = q
    · subst hkq
      have hnone : bankGet d k = none := by
        rw [find?_isSome_eq_bankGet_isSome] at hp
        cases hb : bankGet d k with
        | none => rfl
        | some w => rw [hb] at hp; simp at hp
      rw [hnone, if_pos rfl]
    · rw [if_neg hkq]
      cases hb : bankGet d q with
      | none => rw [if_neg hkq]
      | some w => rw [if_neg hkq]

lemma map_fst_updateVal (d : Bank) (k : String) (v : List String) :
    (d.map (fun p => if p.1 = k then (k, v) else p)).map Prod.fst
      = d.map Prod.fst := by
  induction d with
  | nil => rfl
  | cons a t ih =>
    rw [List.map_cons, List.map_cons, List.map_cons, ih]
    by_cases hak : a.1 = k
    · rw [if_pos hak]
      simp [hak]
    · rw [if_neg hak]

lemma map_fst_bankSet (d : Bank) (k : String) (v : List String) :
    (bankSet d k v).map Prod.fst =
      if (bankGet d k).isSome = true then d.map Prod.fst
      else d.map Prod.fst ++ [k] := by
  unfold bankSet
  rw [find?_isSome_eq_bankGet_isSome]
  by_cases hp : (bankGet d k).isSome = true
  · rw [if_pos hp, if_pos hp, map_fst_updateVal]
  · rw [if_neg hp, if_neg hp, List.map_append]
    rfl

lemma bankSet_nodup_keys {d : Bank} (k : String) (v : List String)
    (h : (d.map Prod.fst).Nodup) : ((bankSet d k v).map Prod.fst).Nodup := by
  rw [map_fst_bankSet]
  by_cases hp : (bankGet d k).isSome = true
  · rw [if_pos hp]; exact h
  · rw [if_neg hp]
    have hk : k ∉ d.map Prod.fst := by
      intro hmem
      exact hp ((bankGet_isSome_iff d k).mpr hmem)
    rw [List.nodup_append]
    refine ⟨h, List.nodup_singleton k, ?_⟩
    intro a ha hb
    rw [List.mem_singleton] at hb
    subst hb
    exact hk ha

/-!  The closed form of the two-bank merge.  -/

/-- The inner fold of `_osszefesul_qa`: one bank merged into the
accumulator. -/
def mergeOne (v : Bank) (qa : Bank) : Bank :=
  qa.foldl (fun v p => osszefesulStep v p.1 p.2) v

lemma osszefesul_two (A B : Bank) :
    _osszefesul_qa [A, B] = mergeOne (mergeOne [] A) B := rfl

lemma mergeOne_nil (v : Bank) : mergeOne v [] = v := rfl

lemma mergeOne_cons (v : Bank) (k : String) (l : List String) (t : Bank) :
    mergeOne v ((k, l) :: t) = mergeOne (osszefesulStep v k l) t := rfl

lemma bankGet_osszefesulStep (v : Bank) (k : String) (l : List String)
    (q : String) :
    bankGet (osszefesulStep v k l) q =
      if k = q then
        (match bankGet v k with
         | none => some (stripFilter l)
         | some cur => some (dedupLower [] (cur ++ stripFilter l)))
      else bankGet v q := by
  cases hb : bankGet v k with
  | none =>
    have hstep : osszefesulStep v k l = bankSet v k (stripFilter l) := by
      unfold osszefesulStep
      rw [hb]
    rw [hstep, bankGet_bankSet]
  | some cur =>
    have hstep : osszefesulStep v k l
        = bankSet v k (dedupLower [] (cur ++ stripFilter l)) := by
      unfold osszefesulStep
      rw [hb]
    rw [hstep, bankGet_bankSet]

lemma bankGet_mergeOne (A : Bank) :
    ∀ (v : Bank) (q : String), (A.map Prod.fst).Nodup →
      bankGet (mergeOne v A) q =
        match bankGet A q, bankGet v q with
        | none, w => w
        | some l, none => some (stripFilter l)
        | some l, some cur => some (dedupLower [] (cur ++ stripFilter l)) := by
  induction A with
  | nil =>
    intro v q _
    rw [mergeOne_nil, bankGet_nil]
  | cons p t ih =>
    intro v q hnd
    obtain ⟨k, l⟩ := p
    rw [List.map_cons] at hnd
    have hk_notin : k ∉ t.map Prod.fst := (List.nodup_cons.mp hnd).1
    have hnd' : (t.map Prod.fst).Nodup := (List.nodup_cons.mp hnd).2
    rw [mergeOne_cons, ih _ q hnd']
    by_cases hkq : k = q
    · subst hkq
      have htnone : bankGet t k = none := (bankGet_eq_none_iff t k).mpr hk_notin
      rw [htnone, bankGet_cons, if_pos rfl, bankGet_osszefesulStep, if_pos rfl]
      cases hbv : bankGet v k <;> rfl
    · rw [bankGet_cons, if_neg hkq, bankGet_osszefesulStep, if_neg hkq]

lemma bankGet_merge2 (A B : Bank) (hA : (A.map Prod.fst).Nodup)
    (hB : (B.map Prod.fst).Nodup) (q : String) :
    bankGet (_osszefesul_qa [A, B]) q =
      match bankGet A q, bankGet B q with
      | none, none => none
      | some la, none => some (stripFilter la)
      | none, some lb => some (stripFilter lb)
      | some la, some lb =>
        some (dedupLower [] (stripFilter la ++ stripFilter lb)) := by
  rw [osszefesul_two, bankGet_mergeOne B _ q hB]
  have hA2 : bankGet (mergeOne [] A) q = (bankGet A q).map stripFilter := by
    rw [bankGet_mergeOne A [] q hA, bankGet_nil]
    cases bankGet A q <;> rfl
  rw [hA2]
  cases bankGet A q <;> cases bankGet B q <;> rfl

/-!  Lemmas about the case-insensitive de-duplication.  -/

lemma dedupLower_nil (seen : List String) : dedupLower seen [] = [] := rfl

lemma dedupLower_cons (seen : List String) (a : String) (t : List String) :
    dedupLower seen (a :: t) =
      if pyLower a ≠ "" && !(seen.contains (pyLower a)) then
        a :: dedupLower (pyLower a :: seen) t
      else dedupLower seen t := rfl

lemma dedup_guard_iff (seen : List String) (a : String) :
    (pyLower a ≠ "" && !(seen.contains (pyLower a))) = true ↔
      (pyLower a ≠ "" ∧ pyLower a ∉ seen) := by
  simp

lemma string_eq_empty_iff_data (a : String) : a = "" ↔ a.data = [] := by
  constructor
  · intro h; rw [h]
  · intro h
    cases a with
    | mk d =>
      simp only [String.data] at h
      rw [h]

lemma pyLower_eq_empty_iff (a : String) : pyLower a = "" ↔ a = "" := by
  rw [string_eq_empty_iff_data, string_eq_empty_iff_data]
  show a.data.map Char.toLower = [] ↔ a.data = []
  rw [List.map_eq_nil_iff]

lemma stripFilter_mem_ne (l : List String) : ∀ a ∈ stripFilter l, a ≠ "" := by
  intro a ha
  unfold stripFilter at ha
  rw [List.mem_map] at ha
  obtain ⟨x, hx, rfl⟩ := ha
  rw [List.mem_filter] at hx
  have hcond := hx.2
  rw [Bool.and_eq_true] at hcond
  simpa using hcond.2

lemma mem_map_lower_dedupLower (x : String) :
    ∀ (l seen : List String), (∀ a ∈ l, a ≠ "") →
      (x ∈ (dedupLower seen l).map pyLower ↔
        (x ∈ l.map pyLower ∧ x ∉ seen)) := by
  intro l
  induction l with
  | nil => intro seen _; simp [dedupLower_nil]
  | cons a t ih =>
    intro seen hne
    have hane : a ≠ "" := hne a (by simp)
    have hkey : pyLower a ≠ "" := fun h => hane ((pyLower_eq_empty_iff a).mp h)
    have hnet : ∀ b ∈ t, b ≠ "" := fun b hb => hne b (by simp [hb])
    rw [dedupLower_cons]
    by_cases hmem : pyLower a ∈ seen
    · rw [if_neg (by rw [dedup_guard_iff]; exact fun h => h.2 hmem),
        ih seen hnet, List.map_cons]
      constructor
      · rintro ⟨hx, hxs⟩
        exact ⟨List.mem_cons_of_mem _ hx, hxs⟩
      · rintro ⟨hx, hxs⟩
        rcases List.mem_cons.mp hx with rfl | hx2
        · exact absurd hmem hxs
        · exact ⟨hx2, hxs⟩
    · rw [if_pos (by rw [dedup_guard_iff]; exact ⟨hkey, hmem⟩),
        List.map_cons, List.map_cons, List.mem_cons,
        ih (pyLower a :: seen) hnet]
      constructor
      · rintro (rfl | ⟨hx, hxs⟩)
        · exact ⟨by simp, hmem⟩
        · exact ⟨List.mem_cons_of_mem _ hx,
            fun hs => hxs (List.mem_cons_of_mem _ hs)⟩
      · rintro ⟨hx, hxs⟩
        by_cases hxa : x = pyLower a
        · exact Or.inl hxa
        · rcases List.mem_cons.mp hx with h1 | h2
          · exact absurd h1 hxa
          · refine Or.inr ⟨h2, fun hs => ?_⟩
            rcases List.mem_cons.mp hs with h3 | h4
            · exact hxa h3
            · exact hxs h4

/-- The set of seen keys after `dedupLower` processes a list (proof-layer
helper). -/
def seenOf : List String → List String → List String
  | seen, [] => seen
  | seen, a :: t =>
    if pyLower a ≠ "" && !(seen.contains (pyLower a)) then
      seenOf (pyLower a :: seen) t
    else seenOf seen t

lemma dedupLower_append (x : List String) :
    ∀ (seen y : List String),
      dedupLower seen (x ++ y)
        = dedupLower seen x ++ dedupLower (seenOf seen x) y := by
  induction x with
  | nil => intro seen y; rfl
  | cons a t ih =>
    intro seen y
    rw [List.cons_append, dedupLower_cons, dedupLower_cons,
      show seenOf seen (a :: t)
          = if pyLower a ≠ "" && !(seen.contains (pyLower a)) then
              seenOf (pyLower a :: seen) t
            else seenOf seen t from rfl]
    by_cases hg : (pyLower a ≠ "" && !(seen.contains (pyLower a))) = true
    · rw [if_pos hg, if_pos hg, if_pos hg, ih, List.cons_append]
    · rw [if_neg hg, if_neg hg, if_neg hg, ih]

lemma seenOf_mono : ∀ (x seen : List String) (k : String),
    k ∈ seen → k ∈ seenOf seen x := by
  intro x
  induction x with
  | nil => intro seen k h; exact h
  | cons a t ih =>
    intro seen k h
    rw [show seenOf seen (a :: t)
        = if pyLower a ≠ "" && !(seen.contains (pyLower a)) then
            seenOf (pyLower a :: seen) t
          else seenOf seen t from rfl]
    by_cases hg : (pyLower a ≠ "" && !(seen.contains (pyLower a))) = true
    · rw [if_pos hg]
      exact ih _ k (List.mem_cons_of_mem _ h)
    · rw [if_neg hg]
      exact ih _ k h

lemma mem_seenOf_of_mem : ∀ (x seen : List String) (a : String),
    a ∈ x → pyLower a ≠ "" → pyLower a ∈ seenOf seen x := by
  intro x
  induction x with
  | nil => intro seen a ha; simp at ha
  | cons b t ih =>
    intro seen a ha hne
    rw [show seenOf seen (b :: t)
        = if pyLower b ≠ "" && !(seen.contains (pyLower b)) then
            seenOf (pyLower b :: seen) t
          else seenOf seen t from rfl]
    rcases List.mem_cons.mp ha with rfl | hat
    · by_cases hg : (pyLower a ≠ "" && !(seen.contains (pyLower a))) = true
      · rw [if_pos hg]
        exact seenOf_mono t _ _ (by simp)
      · rw [if_neg hg]
        have hmem : pyLower a ∈ seen := by
          rw [dedup_guard_iff] at hg
          by_contra hno
          exact hg ⟨hne, hno⟩
        exact seenOf_mono t _ _ hmem
    · by_cases hg : (pyLower b ≠ "" && !(seen.contains (pyLower b))) = true
      · rw [if_pos hg]; exact ih _ a hat hne
      · rw [if_neg hg]; exact ih _ a hat hne

lemma dedupLower_eq_nil_of_seen : ∀ (y seen : List String),
    (∀ a ∈ y, pyLower a = "" ∨ pyLower a ∈ seen) →
    dedupLower seen y = [] := by
  intro y
  induction y with
  | nil => intro seen _; rfl
  | cons a t ih =>
    intro seen h
    rw [dedupLower_cons]
    have hga : pyLower a = "" ∨ pyLower a ∈ seen := h a (by simp)
    rw [if_neg (by
      rw [dedup_guard_iff]
      rintro ⟨h1, h2⟩
      rcases hga with h3 | h3
      · exact h1 h3
      · exact h2 h3)]
    exact ih seen (fun b hb => h b (by simp [hb]))

lemma dedupLower_self_append (l : List String) (seen : List String)
    (hne : ∀ a ∈ l, a ≠ "") :
    dedupLower seen (l ++ l) = dedupLower seen l := by
  rw [dedupLower_append]
  rw [dedupLower_eq_nil_of_seen l (seenOf seen l) (fun a ha =>
    Or.inr (mem_seenOf_of_mem l seen a ha
      (fun h => hne a ha ((pyLower_eq_empty_iff a).mp h)))),
    List.append_nil]

/-- Claim C2, counterexample: merging `{"q": ["Foo"]}` with `{"q": ["foo"]}`
keeps the first-seen surface form, so the merged answer set is `{"Foo"}` in
one order and `{"foo"}` in the other — set membership differs with the
order of the banks. -/
theorem c2_counterexample :
    _osszefesul_qa [[("q", ["Foo"])], [("q", ["foo"])]] = [("q", ["Foo"])] ∧
    _osszefesul_qa [[("q", ["foo"])], [("q", ["Foo"])]] = [("q", ["foo"])] ∧
    ("Foo" : String) ∈ ["Foo"] ∧ ("Foo" : String) ∉ ["foo"] :=
  ⟨by decide, by decide, by decide, by decide⟩

/-- Claim C2 (amended): merging is commutative up to case-insensitive
comparison — for any two banks and any question, the set of lowercased
answers of the merged entry is the same whichever order the banks are
supplied (the surface form kept for a case-insensitive duplicate is the
first-seen one and may differ).  Merging a bank with itself yields, per
question, the trimmed, empty-filtered, case-insensitively de-duplicated
answer list of that bank (hence exactly the bank's own answers whenever
they are already trimmed, non-empty, and case-insensitively distinct). -/
theorem c2_merge_amended :
    (∀ (A B : Bank), (A.map Prod.fst).Nodup → (B.map Prod.fst).Nodup →
      ∀ (q x : String),
        (x ∈ ((bankGet (_osszefesul_qa [A, B]) q).getD []).map pyLower ↔
         x ∈ ((bankGet (_osszefesul_qa [B, A]) q).getD []).map pyLower)) ∧
    (∀ (A : Bank), (A.map Prod.fst).Nodup → ∀ (q : String),
      bankGet (_osszefesul_qa [A, A]) q =
        (bankGet A q).map (fun l => dedupLower [] (stripFilter l))) := by
  constructor
  · intro A B hA hB q x
    rw [bankGet_merge2 A B hA hB q, bankGet_merge2 B A hB hA q]
    cases hA2 : bankGet A q with
    | none =>
      cases hB2 : bankGet B q with
      | none => exact Iff.rfl
      | some lb => exact Iff.rfl
    | some la =>
      cases hB2 : bankGet B q with
      | none => exact Iff.rfl
      | some lb =>
        show x ∈ (dedupLower [] (stripFilter la ++ stripFilter lb)).map pyLower ↔
          x ∈ (dedupLower [] (stripFilter lb ++ stripFilter la)).map pyLower
        have hne1 : ∀ a ∈ stripFilter la ++ stripFilter lb, a ≠ "" := by
          intro a ha
          rcases List.mem_append.mp ha with h | h
          · exact stripFilter_mem_ne la a h
          · exact stripFilter_mem_ne lb a h
        have hne2 : ∀ a ∈ stripFilter lb ++ stripFilter la, a ≠ "" := by
          intro a ha
          rcases List.mem_append.mp ha with h | h
          · exact stripFilter_mem_ne lb a h
          · exact stripFilter_mem_ne la a h
        rw [mem_map_lower_dedupLower x _ [] hne1,
          mem_map_lower_dedupLower x _ [] hne2]
        simp only [List.map_append, List.mem_append, List.not_mem_nil,
          not_false_eq_true, and_true]
        exact Or.comm
  · intro A hA q
    rw [bankGet_merge2 A A hA hA q]
    cases hA2 : bankGet A q with
    | none => rfl
    | some la =>
      show some (dedupLower [] (stripFilter la ++ stripFilter la))
        = some (dedupLower [] (stripFilter la))
      rw [dedupLower_self_append _ [] (stripFilter_mem_ne la)]

/-- Concrete instance of the amended C2 theorem: the `Foo`/`foo` merge is
commutative up to lowercasing, and self-merge of `{"r": [" x", "X "]}`
normalises the entry to `["x"]`. -/
theorem c2_merge_amended_witness :
    (("foo" : String) ∈
        ((bankGet (_osszefesul_qa [[("q", ["Foo"])], [("q", ["foo"])]])
          "q").getD []).map pyLower ↔
      ("foo" : String) ∈
        ((bankGet (_osszefesul_qa [[("q", ["foo"])], [("q", ["Foo"])]])
          "q").getD []).map pyLower) ∧
    bankGet (_osszefesul_qa [[("r", [" x", "X "])], [("r", [" x", "X "])]]) "r"
      = some ["x"] :=
  ⟨c2_merge_amended.1 [("q", ["Foo"])] [("q", ["foo"])]
      (by decide) (by decide) "q" "foo",
    (c2_merge_amended.2 [("r", [" x", "X "])] (by decide) "r").trans rfl⟩

/-!  Claim C8: error behaviour of the two column-based CSV parsers.  -/

lemma beolvas_csv_dict_cons (row0 : Row) (rest : List Row) :
    beolvas_csv_dict (row0 :: rest) =
      match _find_column row0 ["question", "questions"],
          _find_column row0 ["answer", "answers"] with
      | some qCol, some aCol =>
        if (row0 :: rest).foldl (beolvasStep qCol aCol) [] = [] then
          .error .formatError
        else .ok ((row0 :: rest).foldl (beolvasStep qCol aCol) [])
      | _, _ => .error .configError := rfl

lemma beolvasAppStep_noQCol (cA : Option String) (qa : Bank) (row : Row) :
    beolvasAppStep none cA qa row = qa := by
  unfold beolvasAppStep
  simp

lemma foldl_appStep_noQCol (cA : Option String) :
    ∀ (rows : List Row) (qa : Bank),
      rows.foldl (beolvasAppStep none cA) qa = qa := by
  intro rows
  induction rows with
  | nil => intro qa; rfl
  | cons r t ih =>
    intro qa
    rw [List.foldl_cons, beolvasAppStep_noQCol, ih]

lemma beolvas_csv_unfold (fieldnames : List String) (rows : List Row) :
    beolvas_csv fieldnames rows =
      if fieldnames = [] then []
      else
        rows.foldl (beolvasAppStep
          (((fnGet (lowerMapApp fieldnames) "question").orElse
            (fun _ => fnGet (lowerMapApp fieldnames) "kerdes")).orElse
            (fun _ => fnGet (lowerMapApp fieldnames) "kérdés"))
          (((fnGet (lowerMapApp fieldnames) "answer").orElse
            (fun _ => fnGet (lowerMapApp fieldnames) "valasz")).orElse
            (fun _ => fnGet (lowerMapApp fieldnames) "válasz"))) [] := rfl

/-- Claim C8, counterexample: the app_kemia column-based parser returns the
empty mapping — not a `FormatError` — for an empty source, and the empty
mapping — not a `ConfigurationError` — when the header has no resolvable
question column. -/
theorem c8_counterexample :
    beolvas_csv [] [] = ([] : Bank) ∧
    beolvas_csv ["x"] [[("x", "v")]] = ([] : Bank) :=
  ⟨rfl, rfl⟩

/-- Claim C8 (amended): the molsejt column-based parse fails with a
`FormatError` on an empty source, with a `ConfigurationError` when the
header row lacks a resolvable question or answer column, and with a
`FormatError` when no row parses; it returns either an error or a
non-empty bank, never a partial result.  The app_kemia column-based parse
never fails: it returns the empty mapping for an empty source or when the
question column cannot be resolved. -/
theorem c8_parse_errors_amended :
    beolvas_csv_dict [] = .error .formatError ∧
    (∀ (row0 : Row) (rest : List Row),
      (_find_column row0 ["question", "questions"] = none ∨
       _find_column row0 ["answer", "answers"] = none) →
      beolvas_csv_dict (row0 :: rest) = .error .configError) ∧
    (∀ rows : List Row,
      (∃ e, beolvas_csv_dict rows = .error e) ∨
      (∃ qa, beolvas_csv_dict rows = .ok qa ∧ qa ≠ [])) ∧
    (∀ rows : List Row, beolvas_csv [] rows = []) ∧
    (∀ (fieldnames : List String) (rows : List Row),
      ((fnGet (lowerMapApp fieldnames) "question").orElse
        (fun _ => fnGet (lowerMapApp fieldnames) "kerdes")).orElse
        (fun _ => fnGet (lowerMapApp fieldnames) "kérdés") = none →
      beolvas_csv fieldnames rows = []) := by
  refine ⟨rfl, ?_, ?_, ?_, ?_⟩
  · intro row0 rest h
    rw [beolvas_csv_dict_cons]
    cases hq2 : _find_column row0 ["question", "questions"] with
    | none => rfl
    | some qc =>
      cases ha2 : _find_column row0 ["answer", "answers"] with
      | none => rfl
      | some ac =>
        rcases h with h | h
        · rw [hq2] at h; exact absurd h (by simp)
        · rw [ha2] at h; exact absurd h (by simp)
  · intro rows
    cases rows with
    | nil => exact Or.inl ⟨.formatError, rfl⟩
    | cons row0 rest =>
      rw [beolvas_csv_dict_cons]
      cases hq2 : _find_column row0 ["question", "questions"] with
      | none => exact Or.inl ⟨.configError, rfl⟩
      | some qc =>
        cases ha2 : _find_column row0 ["answer", "answers"] with
        | none => exact Or.inl ⟨.configError, rfl⟩
        | some ac =>
          by_cases hqa : (row0 :: rest).foldl (beolvasStep qc ac) [] = []
          · refine Or.inl ⟨.formatError, ?_⟩
            show (if (row0 :: rest).foldl (beolvasStep qc ac) [] = [] then
                (.error .formatError : Except PyError Bank)
              else .ok ((row0 :: rest).foldl (beolvasStep qc ac) []))
              = .error .formatError
            rw [if_pos hqa]
          · refine Or.inr ⟨(row0 :: rest).foldl (beolvasStep qc ac) [], ?_, hqa⟩
            show (if (row0 :: rest).foldl (beolvasStep qc ac) [] = [] then
                (.error .formatError : Except PyError Bank)
              else .ok ((row0 :: rest).foldl (beolvasStep qc ac) []))
              = .ok ((row0 :: rest).foldl (beolvasStep qc ac) [])
            rw [if_neg hqa]
  · intro rows; rfl
  · intro fieldnames rows h
    rw [beolvas_csv_unfold]
    by_cases hf : fieldnames = []
    · rw [if_pos hf]
    · rw [if_neg hf, h, foldl_appStep_noQCol]

/-- Concrete instance of the amended C8 theorem: a header with no
question/answer columns is a `ConfigurationError` in the molsejt parser. -/
theorem c8_parse_errors_amended_witness :
    beolvas_csv_dict [[("kerdes", "Q?"), ("valasz", "A")]]
      = .error .configError :=
  c8_parse_errors_amended.2.1 [("kerdes", "Q?"), ("valasz", "A")] []
    (Or.inl rfl)

/-!  Claim C10: duplicate question text in the numbered-header parser.  -/

/-- One row of the qa_utils_kemia loop (line 109): `qa[question] = answers`
overwrites. -/
def kemiaStep (qa : Bank) (m : String × String) : Bank :=
  bankSet qa (pyStrip m.1) (_parse_answers_block m.2)

lemma beolvas_kemia_cons (m0 : String × String) (tail : List (String × String)) :
    beolvas_csv_dict_kemia (m0 :: tail)
      = .ok ((m0 :: tail).foldl kemiaStep []) := rfl

lemma foldl_kemiaStep_nodup :
    ∀ (ms : List (String × String)) (d : Bank),
      (d.map Prod.fst).Nodup → (((ms.foldl kemiaStep d).map Prod.fst)).Nodup := by
  intro ms
  induction ms with
  | nil => intro d h; exact h
  | cons m t ih =>
    intro d h
    rw [List.foldl_cons]
    exact ih _ (bankSet_nodup_keys _ _ h)

lemma bankGet_foldl_kemiaStep :
    ∀ (ms : List (String × String)) (d : Bank) (q : String),
      bankGet (ms.foldl kemiaStep d) q =
        match (ms.filter (fun r => pyStrip r.1 = q)).getLast? with
        | some m => some (_parse_answers_block m.2)
        | none => bankGet d q := by
  intro ms
  induction ms with
  | nil => intro d q; rfl
  | cons m t ih =>
    intro d q
    rw [List.foldl_cons, ih, List.filter_cons]
    by_cases hp : pyStrip m.1 = q
    · rw [if_pos (by simpa using hp)]
      cases hfl : (t.filter (fun r => pyStrip r.1 = q)).getLast? with
      | none =>
        have hnil : t.filter (fun r => pyStrip r.1 = q) = [] := by
          rwa [List.getLast?_eq_none_iff] at hfl
        rw [hnil]
        show bankGet (kemiaStep d m) q = some (_parse_answers_block m.2)
        unfold kemiaStep
        rw [bankGet_bankSet, if_pos hp]
      | some m' =>
        cases hfl2 : t.filter (fun r => pyStrip r.1 = q) with
        | nil => rw [hfl2] at hfl; simp at hfl
        | cons x xs =>
          rw [List.getLast?_cons_cons]
          rw [hfl2] at hfl
          rw [hfl]
    · rw [if_neg (by simpa using hp)]
      cases hfl : (t.filter (fun r => pyStrip r.1 = q)).getLast? with
      | none =>
        show bankGet (kemiaStep d m) q = bankGet d q
        unfold kemiaStep
        rw [bankGet_bankSet, if_neg hp]
      | some m' => rfl

/-- Claim C10: when several numbered headers capture the same (stripped)
question text, the parsed mapping holds that question exactly once, bound
to the answer block of the last such header — earlier blocks are discarded,
not merged. -/
theorem c10_kemia_duplicate_last_wins :
    ∀ (ms : List (String × String)) (q : String) (m : String × String),
      (ms.filter (fun r => pyStrip r.1 = q)).getLast? = some m →
      ∃ bank, beolvas_csv_dict_kemia ms = .ok bank ∧
        (bank.map Prod.fst).count q = 1 ∧
        bankGet bank q = some (_parse_answers_block m.2) := by
  intro ms q m hlast
  have hms : ms ≠ [] := by
    intro hz
    rw [hz] at hlast
    simp at hlast
  obtain ⟨m0, tail, rfl⟩ : ∃ m0 tail, ms = m0 :: tail := by
    cases ms with
    | nil => exact absurd rfl hms
    | cons m0 tail => exact ⟨m0, tail, rfl⟩
  refine ⟨(m0 :: tail).foldl kemiaStep [], beolvas_kemia_cons m0 tail, ?_, ?_⟩
  · have hget : bankGet ((m0 :: tail).foldl kemiaStep []) q
        = some (_parse_answers_block m.2) := by
      rw [bankGet_foldl_kemiaStep, hlast]
    have hmem : q ∈ ((m0 :: tail).foldl kemiaStep []).map Prod.fst := by
      rw [← bankGet_isSome_iff, hget]
      rfl
    have hnd : (((m0 :: tail).foldl kemiaStep []).map Prod.fst).Nodup :=
      foldl_kemiaStep_nodup _ [] (by simp)
    exact List.count_eq_one_of_mem hnd hmem
  · rw [bankGet_foldl_kemiaStep, hlast]

/-- Concrete instance of the C10 theorem: two headers whose question text
strips to `"Q"`; the mapping binds `"Q"` once, to the last block's
answers. -/
theorem c10_kemia_duplicate_last_wins_witness :
    ∃ bank, beolvas_csv_dict_kemia [("Q", "- a"), ("Q ", "- b")] = .ok bank ∧
      (bank.map Prod.fst).count "Q" = 1 ∧
      bankGet bank "Q" = some (_parse_answers_block "- b") :=
  c10_kemia_duplicate_last_wins [("Q", "- a"), ("Q ", "- b")] "Q" ("Q ", "- b")
    (by decide)

/-!  Claim C6: the bank invariants.  -/

lemma pyStrip_idem (s : String) : pyStrip (pyStrip s) = pyStrip s :=
  congrArg String.mk (pyStripC_idem s.data)

lemma mem_bankSet {p : String × List String} {d : Bank} {k : String}
    {v : List String} (h : p ∈ bankSet d k v) : p = (k, v) ∨ p ∈ d := by
  unfold bankSet at h
  by_cases hp : (d.find? (fun r => r.1 = k)).isSome = true
  · rw [if_pos hp] at h
    rw [List.mem_map] at h
    obtain ⟨a, ha, rfl⟩ := h
    by_cases hak : a.1 = k
    · rw [if_pos hak]; exact Or.inl rfl
    · rw [if_neg hak]; exact Or.inr ha
  · rw [if_neg hp] at h
    rcases List.mem_append.mp h with h1 | h1
    · exact Or.inr h1
    · exact Or.inl (List.mem_singleton.mp h1)

lemma dedupStripLower_nil (seen : List String) :
    dedupStripLower seen [] = [] := rfl

lemma dedupStripLower_cons (seen : List String) (a : String)
    (t : List String) :
    dedupStripLower seen (a :: t) =
      if pyLower (pyStrip a) ≠ "" && !(seen.contains (pyLower (pyStrip a))) then
        pyStrip a :: dedupStripLower (pyLower (pyStrip a) :: seen) t
      else dedupStripLower seen t := rfl

lemma dedupStripLower_mem :
    ∀ (l seen : List String) (a : String), a ∈ dedupStripLower seen l →
      pyStrip a = a ∧ pyLower a ∉ seen := by
  intro l
  induction l with
  | nil => intro seen a h; simp [dedupStripLower_nil] at h
  | cons x t ih =>
    intro seen a h
    rw [dedupStripLower_cons] at h
    by_cases hg : (pyLower (pyStrip x) ≠ ""
        && !(seen.contains (pyLower (pyStrip x)))) = true
    · rw [if_pos hg] at h
      rw [Bool.and_eq_true] at hg
      have hg2 : pyLower (pyStrip x) ∉ seen := by simpa using hg.2
      rcases List.mem_cons.mp h with rfl | h2
      · exact ⟨pyStrip_idem x, hg2⟩
      · obtain ⟨hfix, hnot⟩ := ih _ a h2
        exact ⟨hfix, fun hm => hnot (List.mem_cons_of_mem _ hm)⟩
    · rw [if_neg hg] at h
      exact ih _ a h

lemma dedupStripLower_pairwise :
    ∀ (l seen : List String),
      (dedupStripLower seen l).Pairwise (fun a b => pyLower a ≠ pyLower b) := by
  intro l
  induction l with
  | nil => intro seen; simp [dedupStripLower_nil]
  | cons x t ih =>
    intro seen
    rw [dedupStripLower_cons]
    by_cases hg : (pyLower (pyStrip x) ≠ ""
        && !(seen.contains (pyLower (pyStrip x)))) = true
    · rw [if_pos hg]
      refine List.Pairwise.cons ?_ (ih _)
      intro b hb
      obtain ⟨hfix, hnot⟩ := dedupStripLower_mem t _ b hb
      intro heq
      exact hnot (by rw [← heq]; simp)
    · rw [if_neg hg]
      exact ih _

lemma dedupLower_mem_of_mem :
    ∀ (l seen : List String) (a : String), a ∈ dedupLower seen l → a ∈ l := by
  intro l
  induction l with
  | nil => intro seen a h; simp [dedupLower_nil] at h
  | cons x t ih =>
    intro seen a h
    rw [dedupLower_cons] at h
    by_cases hg : (pyLower x ≠ "" && !(seen.contains (pyLower x))) = true
    · rw [if_pos hg] at h
      rcases List.mem_cons.mp h with rfl | h2
      · simp
      · exact List.mem_cons_of_mem _ (ih _ a h2)
    · rw [if_neg hg] at h
      exact List.mem_cons_of_mem _ (ih _ a h)

lemma dedupLower_key_notin :
    ∀ (l seen : List String) (a : String), a ∈ dedupLower seen l →
      pyLower a ∉ seen := by
  intro l
  induction l with
  | nil => intro seen a h; simp [dedupLower_nil] at h
  | cons x t ih =>
    intro seen a h
    rw [dedupLower_cons] at h
    by_cases hg : (pyLower x ≠ "" && !(seen.contains (pyLower x))) = true
    · rw [if_pos hg] at h
      rw [Bool.and_eq_true] at hg
      have hg2 : pyLower x ∉ seen := by simpa using hg.2
      rcases List.mem_cons.mp h with rfl | h2
      · exact hg2
      · exact fun hm => ih _ a h2 (List.mem_cons_of_mem _ hm)
    · rw [if_neg hg] at h
      exact ih _ a h

lemma dedupLower_pairwise :
    ∀ (l seen : List String),
      (dedupLower seen l).Pairwise (fun a b => pyLower a ≠ pyLower b) := by
  intro l
  induction l with
  | nil => intro seen; simp [dedupLower_nil]
  | cons x t ih =>
    intro seen
    rw [dedupLower_cons]
    by_cases hg : (pyLower x ≠ "" && !(seen.contains (pyLower x))) = true
    · rw [if_pos hg]
      refine List.Pairwise.cons ?_ (ih _)
      intro b hb heq
      exact dedupLower_key_notin t _ b hb (by rw [← heq]; simp)
    · rw [if_neg hg]
      exact ih _

lemma stripFilter_mem_stripfix (l : List String) :
    ∀ a ∈ stripFilter l, pyStrip a = a := by
  intro a ha
  unfold stripFilter at ha
  rw [List.mem_map] at ha
  obtain ⟨x, _, rfl⟩ := ha
  exact pyStrip_idem x

lemma beolvasStep_unfold (qCol aCol : String) (qa : Bank) (row : Row) :
    beolvasStep qCol aCol qa row =
      if pyStrip (rowGet row qCol) = "" then qa
      else
        match bankGet qa (pyStrip (rowGet row qCol)) with
        | some old =>
          bankSet qa (pyStrip (rowGet row qCol))
            (dedupStripLower []
              (old ++ _answers_from_cell (some (rowGet row aCol))))
        | none =>
          bankSet qa (pyStrip (rowGet row qCol))
            (_answers_from_cell (some (rowGet row aCol))) := rfl

lemma beolvasStep_keys (qCol aCol : String) (d : Bank) (row : Row)
    (hd : ∀ p ∈ d, pyStrip p.1 = p.1 ∧ p.1 ≠ "") :
    ∀ p ∈ beolvasStep qCol aCol d row, pyStrip p.1 = p.1 ∧ p.1 ≠ "" := by
  intro p hp
  rw [beolvasStep_unfold] at hp
  by_cases hq : pyStrip (rowGet row qCol) = ""
  · rw [if_pos hq] at hp
    exact hd p hp
  · rw [if_neg hq] at hp
    cases hb : bankGet d (pyStrip (rowGet row qCol)) with
    | some old =>
      rw [hb] at hp
      replace hp : p ∈ bankSet d (pyStrip (rowGet row qCol))
          (dedupStripLower []
            (old ++ _answers_from_cell (some (rowGet row aCol)))) := hp
      rcases mem_bankSet hp with rfl | hp2
      · exact ⟨pyStrip_idem _, hq⟩
      · exact hd p hp2
    | none =>
      rw [hb] at hp
      replace hp : p ∈ bankSet d (pyStrip (rowGet row qCol))
          (_answers_from_cell (some (rowGet row aCol))) := hp
      rcases mem_bankSet hp with rfl | hp2
      · exact ⟨pyStrip_idem _, hq⟩
      · exact hd p hp2

lemma foldl_beolvasStep_keys (qCol aCol : String) :
    ∀ (rows : List Row) (d : Bank),
      (∀ p ∈ d, pyStrip p.1 = p.1 ∧ p.1 ≠ "") →
      ∀ p ∈ rows.foldl (beolvasStep qCol aCol) d,
        pyStrip p.1 = p.1 ∧ p.1 ≠ "" := by
  intro rows
  induction rows with
  | nil => intro d hd; exact hd
  | cons row t ih =>
    intro d hd
    rw [List.foldl_cons]
    exact ih _ (beolvasStep_keys qCol aCol d row hd)

lemma bankGet_beolvasStep_other (qCol aCol : String) (d : Bank) (row : Row)
    (k : String) (hne : pyStrip (rowGet row qCol) ≠ k) :
    bankGet (beolvasStep qCol aCol d row) k = bankGet d k := by
  rw [beolvasStep_unfold]
  by_cases hq : pyStrip (rowGet row qCol) = ""
  · rw [if_pos hq]
  · rw [if_neg hq]
    cases hb : bankGet d (pyStrip (rowGet row qCol)) with
    | some old =>
      show bankGet (bankSet d (pyStrip (rowGet row qCol)) _) k = bankGet d k
      rw [bankGet_bankSet, if_neg hne]
    | none =>
      show bankGet (bankSet d (pyStrip (rowGet row qCol)) _) k = bankGet d k
      rw [bankGet_bankSet, if_neg hne]

lemma foldl_beolvasStep_frame (qCol aCol : String) :
    ∀ (rows : List Row) (d : Bank) (k : String),
      (∀ row ∈ rows, pyStrip (rowGet row qCol) ≠ k) →
      bankGet (rows.foldl (beolvasStep qCol aCol) d) k = bankGet d k := by
  intro rows
  induction rows with
  | nil => intro d k _; rfl
  | cons row t ih =>
    intro d k h
    rw [List.foldl_cons,
      ih _ k (fun r hr => h r (List.mem_cons_of_mem _ hr)),
      bankGet_beolvasStep_other qCol aCol d row k (h row (by simp))]

lemma foldl_beolvasStep_dup_pairwise (qCol aCol : String) :
    ∀ (rows : List Row) (d : Bank) (k : String), k ≠ "" →
      (2 ≤ (rows.filter (fun row => pyStrip (rowGet row qCol) = k)).length ∨
       (1 ≤ (rows.filter (fun row => pyStrip (rowGet row qCol) = k)).length ∧
        k ∈ d.map Prod.fst)) →
      ∀ l, bankGet (rows.foldl (beolvasStep qCol aCol) d) k = some l →
        l.Pairwise (fun a b => pyLower a ≠ pyLower b) ∧
        ∀ a ∈ l, pyStrip a = a := by
  intro rows
  induction rows with
  | nil =>
    intro d k _ hcnt l _
    exfalso
    rw [List.filter_nil] at hcnt
    rcases hcnt with h | ⟨h, _⟩ <;> simp at h
  | cons row t ih =>
    intro d k hk hcnt l hl
    rw [List.foldl_cons] at hl
    rw [List.filter_cons] at hcnt
    by_cases hmk : pyStrip (rowGet row qCol) = k
    · -- this row inserts or merges at k
      have hqe : pyStrip (rowGet row qCol) ≠ "" := by rw [hmk]; exact hk
      rw [if_pos (by simpa using hmk)] at hcnt
      have hkeys : k ∈ (beolvasStep qCol aCol d row).map Prod.fst := by
        rw [← bankGet_isSome_iff, beolvasStep_unfold, if_neg hqe, hmk]
        cases hb : bankGet d k with
        | some old =>
          show (bankGet (bankSet d k _) k).isSome = true
          rw [bankGet_bankSet, if_pos rfl]
          rfl
        | none =>
          show (bankGet (bankSet d k _) k).isSome = true
          rw [bankGet_bankSet, if_pos rfl]
          rfl
      by_cases hrest :
          1 ≤ (t.filter (fun row => pyStrip (rowGet row qCol) = k)).length
      · exact ih _ k hk (Or.inr ⟨hrest, hkeys⟩) l hl
      · have hnone : ∀ r ∈ t, pyStrip (rowGet r qCol) ≠ k := by
          intro r hr hmatch
          apply hrest
          have hmem : r ∈ t.filter (fun row => pyStrip (rowGet row qCol) = k) :=
            List.mem_filter.mpr ⟨hr, by simpa using hmatch⟩
          have := List.length_pos.mpr (List.ne_nil_of_mem hmem)
          omega
        rw [foldl_beolvasStep_frame qCol aCol t _ k hnone] at hl
        have hlen0 :
            (t.filter (fun row => pyStrip (rowGet row qCol) = k)).length = 0 := by
          omega
        have hkd : k ∈ d.map Prod.fst := by
          rcases hcnt with h2 | ⟨_, hmem⟩
          · rw [List.length_cons, hlen0] at h2
            omega
          · exact hmem
        obtain ⟨old, hold⟩ : ∃ old, bankGet d k = some old := by
          have hs := (bankGet_isSome_iff d k).mpr hkd
          cases hb : bankGet d k with
          | none => rw [hb] at hs; simp at hs
          | some w => exact ⟨w, rfl⟩
        rw [beolvasStep_unfold, if_neg hqe, hmk, hold] at hl
        replace hl : bankGet (bankSet d k
            (dedupStripLower []
              (old ++ _answers_from_cell (some (rowGet row aCol))))) k
            = some l := hl
        rw [bankGet_bankSet, if_pos rfl] at hl
        obtain rfl : dedupStripLower []
            (old ++ _answers_from_cell (some (rowGet row aCol))) = l :=
          Option.some.inj hl
        exact ⟨dedupStripLower_pairwise _ [],
          fun a ha => (dedupStripLower_mem _ [] a ha).1⟩
    · -- this row leaves key k alone
      rw [if_neg (by simpa using hmk)] at hcnt
      have hstep_get : bankGet (beolvasStep qCol aCol d row) k = bankGet d k :=
        bankGet_beolvasStep_other qCol aCol d row k hmk
      rcases hcnt with h2 | ⟨h1, hmem⟩
      · exact ih _ k hk (Or.inl h2) l hl
      · have hmem' : k ∈ (beolvasStep qCol aCol d row).map Prod.fst := by
          rw [← bankGet_isSome_iff, hstep_get, bankGet_isSome_iff]
          exact hmem
        exact ih _ k hk (Or.inr ⟨h1, hmem'⟩) l hl

/-- Claim C6, counterexample: a single CSV row with answer cell `"A; a"`
parses to the entry `["A", "a"]` — two answers equal under
case-insensitive, trim-normalized comparison, with no de-duplication. -/
theorem c6_counterexample :
    beolvas_csv_dict [[("question", "Q?"), ("answer", "A; a")]]
      = .ok [("Q?", ["A", "a"])] ∧
    pyLower (pyStrip "A") = pyLower (pyStrip "a") ∧
    ¬ (["A", "a"] : List String).Pairwise
        (fun a b => pyLower (pyStrip a) ≠ pyLower (pyStrip b)) :=
  ⟨rfl, by decide, by decide⟩

/-- Claim C6 (amended): every bank returned by the molsejt column-based
parse has keys that are trimmed and non-empty; an entry whose question
occurs in two or more rows is de-duplicated, so no two of its answers are
equal under case-insensitive trim-normalized comparison; and a merged entry
whose key is present in both input banks is likewise de-duplicated.
Entries built from a single row, and merged entries present in only one
input bank, are passed through without de-duplication (the
counterexample). -/
theorem c6_invariants_amended :
    (∀ (rows : List Row) (qa : Bank), beolvas_csv_dict rows = .ok qa →
      ∀ p ∈ qa, pyStrip p.1 = p.1 ∧ p.1 ≠ "") ∧
    (∀ (row0 : Row) (rest : List Row) (qCol aCol : String) (qa : Bank)
        (k : String) (l : List String),
      _find_column row0 ["question", "questions"] = some qCol →
      _find_column row0 ["answer", "answers"] = some aCol →
      beolvas_csv_dict (row0 :: rest) = .ok qa →
      k ≠ "" →
      2 ≤ ((row0 :: rest).filter
        (fun row => pyStrip (rowGet row qCol) = k)).length →
      bankGet qa k = some l →
      l.Pairwise (fun a b => pyLower (pyStrip a) ≠ pyLower (pyStrip b))) ∧
    (∀ (A B : Bank), (A.map Prod.fst).Nodup → (B.map Prod.fst).Nodup →
      ∀ (q : String) (la lb l : List String),
      bankGet A q = some la → bankGet B q = some lb →
      bankGet (_osszefesul_qa [A, B]) q = some l →
      l.Pairwise (fun a b => pyLower (pyStrip a) ≠ pyLower (pyStrip b))) := by
  refine ⟨?_, ?_, ?_⟩
  · intro rows qa h
    cases rows with
    | nil =>
      replace h : (.error .formatError : Except PyError Bank) = .ok qa := h
      exact Except.noConfusion h
    | cons row0 rest =>
      rw [beolvas_csv_dict_cons] at h
      cases hq2 : _find_column row0 ["question", "questions"] with
      | none =>
        rw [hq2] at h
        replace h : (.error .configError : Except PyError Bank) = .ok qa := h
        exact Except.noConfusion h
      | some qc =>
        cases ha2 : _find_column row0 ["answer", "answers"] with
        | none =>
          rw [hq2, ha2] at h
          replace h : (.error .configError : Except PyError Bank) = .ok qa := h
          exact Except.noConfusion h
        | some ac =>
          rw [hq2, ha2] at h
          replace h : (if (row0 :: rest).foldl (beolvasStep qc ac) [] = [] then
              (.error .formatError : Except PyError Bank)
            else .ok ((row0 :: rest).foldl (beolvasStep qc ac) [])) = .ok qa := h
          by_cases hqa : (row0 :: rest).foldl (beolvasStep qc ac) [] = []
          · rw [if_pos hqa] at h
            exact Except.noConfusion h
          · rw [if_neg hqa] at h
            obtain rfl := Except.ok.inj h
            exact foldl_beolvasStep_keys qc ac (row0 :: rest) []
              (by intro p hp; simp at hp)
  · intro row0 rest qCol aCol qa k l hq2 ha2 hok hk hcnt hentry
    rw [beolvas_csv_dict_cons, hq2, ha2] at hok
    replace hok : (if (row0 :: rest).foldl (beolvasStep qCol aCol) [] = [] then
        (.error .formatError : Except PyError Bank)
      else .ok ((row0 :: rest).foldl (beolvasStep qCol aCol) [])) = .ok qa := hok
    by_cases hqa : (row0 :: rest).foldl (beolvasStep qCol aCol) [] = []
    · rw [if_pos hqa] at hok
      exact Except.noConfusion hok
    · rw [if_neg hqa] at hok
      obtain rfl := Except.ok.inj hok
      obtain ⟨hpw, hfix⟩ := foldl_beolvasStep_dup_pairwise qCol aCol
        (row0 :: rest) [] k hk (Or.inl hcnt) l hentry
      exact List.Pairwise.imp_of_mem
        (fun ha hb hr => by rw [hfix _ ha, hfix _ hb]; exact hr) hpw
  · intro A B hA hB q la lb l ha hb hl
    rw [bankGet_merge2 A B hA hB q, ha, hb] at hl
    replace hl : some (dedupLower [] (stripFilter la ++ stripFilter lb))
        = some l := hl
    obtain rfl := Option.some.inj hl
    have hpw := dedupLower_pairwise (stripFilter la ++ stripFilter lb) []
    have hfix : ∀ a ∈ dedupLower [] (stripFilter la ++ stripFilter lb),
        pyStrip a = a := by
      intro a ha2
      have hmem := dedupLower_mem_of_mem _ [] a ha2
      rcases List.mem_append.mp hmem with h | h
      · exact stripFilter_mem_stripfix la a h
      · exact stripFilter_mem_stripfix lb a h
    exact List.Pairwise.imp_of_mem
      (fun ha' hb' hr => by rw [hfix _ ha', hfix _ hb']; exact hr) hpw

/-- Concrete instance of the amended C6 theorem: merging `{"q": ["A"]}`
with `{"q": ["a", "B"]}` yields the de-duplicated entry `["A", "B"]`,
pairwise distinct under case-insensitive trim-normalized comparison. -/
theorem c6_invariants_amended_witness :
    (["A", "B"] : List String).Pairwise
      (fun a b => pyLower (pyStrip a) ≠ pyLower (pyStrip b)) :=
  c6_invariants_amended.2.2 [("q", ["A"])] [("q", ["a", "B"])]
    (by decide) (by decide) "q" ["A"] ["a", "B"] ["A", "B"] rfl rfl rfl
